import Mathlib

set_option autoImplicit false

namespace PDDB

/-! Shallow embedding of `pddb/pddb.py` (class `PandasDatabase`).

Records and dataframe cells hold string-or-null values: `none` models both
Python `None` and pandas `NaN`.  A table mirrors one pandas `DataFrame`
together with its entry in `self._schemas`: an ordered column list and rows
aligned with it.  The database state holds the table map (`self._db`), the
per-table row generators (`self._rowgens`, each modelled by the base record
the generator returns), the `dynamic_schema` flag, and a counter driving the
fresh-token supply that models `uuid.uuid4()`.  The configuration modelled is
the default of `PandasDatabase.defaults` (`auto_load=True`, `auto_cast=False`);
disk persistence and threading live outside this state, and the deferred-save
scheduler `_save_defer` is modelled separately below.  Regular-expression
matching (pandas `.str.match`) is kept abstract: operations take the matcher
`rm : String → String → Bool` as an explicit parameter, so every theorem holds
for every regex semantics. -/

/-- Cell value: `none` models Python `None` / pandas `NaN`. -/
abbrev Value := Option String

/-- A dataframe row, aligned with the table schema. -/
abbrev Row := List Value

/-- Value bound to key `k` in an association list (Python `dict` lookup; a
real dict has unique keys, so "first binding" is exact). -/
def alGet {α : Type} : List (String × α) → String → Option α
  | [], _ => none
  | p :: ps, k => if p.1 == k then some p.2 else alGet ps k

/-- Python `dict` assignment `d[k] = v`: update in place, else append. -/
def alSet {α : Type} : List (String × α) → String → α → List (String × α)
  | [], k, v => [(k, v)]
  | p :: ps, k, v => if p.1 == k then (k, v) :: ps else p :: alSet ps k v

/-- `l[n]` as an option. -/
def getN {α : Type} : List α → Nat → Option α
  | [], _ => none
  | a :: _, 0 => some a
  | _ :: as, n + 1 => getN as n

/-- Attach positional indices starting at `n` (models the dataframe index). -/
def withIdxFrom {α : Type} (n : Nat) : List α → List (Nat × α)
  | [] => []
  | a :: as => (n, a) :: withIdxFrom (n + 1) as

/-- Keep the elements selected by a boolean mask (`dataframe[mask]`). -/
def applyMask {α : Type} : List α → List Bool → List α
  | [], _ => []
  | _ :: _, [] => []
  | a :: as, b :: bs => if b then a :: applyMask as bs else applyMask as bs

instance {ε α : Type} [DecidableEq ε] [DecidableEq α] : DecidableEq (Except ε α) := fun x y =>
  match x, y with
  | .ok a, .ok b =>
    if h : a = b then isTrue (by rw [h]) else isFalse (fun hc => h (Except.ok.inj hc))
  | .error a, .error b =>
    if h : a = b then isTrue (by rw [h]) else isFalse (fun hc => h (Except.error.inj hc))
  | .ok _, .error _ => isFalse (fun hc => Except.noConfusion hc)
  | .error _, .ok _ => isFalse (fun hc => Except.noConfusion hc)

/-- Case normalization (`.lower()`), written structurally so that it
computes by kernel reduction: ASCII letters are folded to lowercase. -/
def lowerStr (s : String) : String := String.mk (s.data.map Char.toLower)

/-- The reserved id column `__id__` (`_id_colname`). -/
def idCol : String := "__id__"

/-- Models `str(uuid.uuid4())`: an inexhaustible supply of pairwise distinct
tokens, driven by the database counter. -/
def freshId (n : Nat) : String := String.mk (List.replicate (n + 1) 'u')

/-- One table: `self._schemas[tname]` plus the dataframe `self._db[tname]`. -/
structure Table where
  schema : List String
  rows : List Row
deriving DecidableEq

/-- Database state (the fields of one `PandasDatabase` that the table engine
reads and writes). -/
structure DB where
  tables : List (String × Table)
  rowgens : List (String × List (String × Value))
  nextId : Nat
  dynamicSchema : Bool
deriving DecidableEq

/-- The `ValueError`/`KeyError` kinds the engine raises. -/
inductive DbError where
  | tableNotFound (t : String)
  | badRecordValue
  | badConditionValue
  | invalidConditionRegex
  | invalidConditionNull
  | invalidColumnName (c : String)
  | missingIdColumn
  | unknownColumn (c : String)
  | keyError (k : String)
  | upsertConflict
deriving DecidableEq

/-- A condition value after `_check_conditions`: an exact string, a compiled
regex pattern, or the null marker (`None`). -/
inductive CondVal where
  | str (s : String)
  | pat (p : String)
  | null
deriving DecidableEq

/-- A condition dict: each column maps to a list of condition values. -/
abbrev Cond := List (String × List CondVal)

def condValIsStr : CondVal → Bool
  | .str _ => true
  | _ => false

def condValIsPat : CondVal → Bool
  | .pat _ => true
  | _ => false

def condValIsNull : CondVal → Bool
  | .null => true
  | _ => false

/-- `_check_conditions`: `_check_dict_type(str, (str, list, regex), ·)` first
rejects every condition value that is not a string, a list or a compiled
pattern — in particular a `None`/NaN value always raises `ValueError`; a bare
pattern then becomes a singleton list, and a list value must contain only
plain strings (`_check_type_iter(str, ·)` raises `ValueError` otherwise). -/
def condEntryOk (vals : List CondVal) : Bool :=
  match vals with
  | [CondVal.pat _] => true
  | _ => vals.all condValIsStr

def checkConditions (c : Cond) : Option DbError :=
  if c.all (fun p => condEntryOk p.2) then none
  else some DbError.badConditionValue

/-- The re-validation that `find` performs on conditions `upsert` and
`delete` have already normalized: every value is a list by then, so
`_check_conditions` sends each one through `_check_type_iter(str, ·)` and
only lists of plain strings survive — a bare pattern, accepted by a direct
`find` call, raises `ValueError` on this second pass. -/
def checkConditionsNorm (c : Cond) : Option DbError :=
  if c.all (fun p => p.2.all condValIsStr) then none
  else some DbError.badConditionValue

/-- A raw record as handed to the engine: values are strings, or (only on the
internal upsert synthesis path) compiled patterns or `None`. -/
abbrev RawRecord := List (String × CondVal)

/-- `_check_dict_type(str, str, record)` with `auto_cast=False`: every value
must be a plain string. -/
def checkRecord (r : RawRecord) : Except DbError (List (String × String)) :=
  if r.all (fun p => condValIsStr p.2) then
    .ok (r.map (fun p => (p.1, match p.2 with | .str s => s | _ => "")))
  else .error DbError.badRecordValue

/-- `^[a-zA-Z0-9_]*$` (the `_colname_rgx`). -/
def colnameOk (c : String) : Bool :=
  c.data.all (fun ch => ch.isAlphanum || ch == '_')

/-- `_check_columns` without `add_id`: the id column must be present and every
name must match the column-name pattern. -/
def checkColumns (cols : List String) : Option DbError :=
  if !(cols.contains idCol) then some DbError.missingIdColumn
  else
    match cols.find? (fun c => !(colnameOk c)) with
    | some c => some (DbError.invalidColumnName c)
    | none => none

/-- The value a row (aligned with `cols`) reports for column `c`; an absent
column reads as null. -/
def rowGet : List String → Row → String → Value
  | [], _, _ => none
  | _ :: _, [], _ => none
  | a :: as, v :: vs, c => if a == c then v else rowGet as vs c

/-- Set the cell of column `c` in a row aligned with `cols` (no-op when the
column is absent; `upsert` only calls this after schema evolution). -/
def setVal : List String → Row → String → Value → Row
  | [], r, _, _ => r
  | _ :: _, [], _, _ => []
  | a :: as, x :: xs, c, v => if a == c then v :: xs else x :: setVal as xs c v

/-- `astype(str)` of one cell: pandas renders `NaN` as the string `"nan"`. -/
def valAsStr (v : Value) : String :=
  match v with
  | some s => s
  | none => "nan"

/-- Single-value condition semantics in `_get_condition_mask`: pattern match
via `.str.match`, null via `.isnull()`, otherwise exact string equality. -/
def singleMatch (rm : String → String → Bool) (cv : CondVal) (v : Value) : Bool :=
  match cv with
  | .pat p => rm p (valAsStr v)
  | .null => v.isNone
  | .str s => v == some s

/-- `.isin(cond_val)`: membership of the cell in a list of strings; a null
cell is never a member. -/
def inMatch (vals : List CondVal) (v : Value) : Bool :=
  match v with
  | some x => vals.any (fun cv => match cv with | .str s => s == x | _ => false)
  | none => false

/-- The membership test `record_new[cond_key] in cond_value` used by the
upsert conflict check (plain Python `==` semantics, `None == None` is true). -/
def memCond (v : Value) (vals : List CondVal) : Bool :=
  vals.any (fun cv =>
    match cv, v with
    | .str s, some x => s == x
    | .null, none => true
    | _, _ => false)

/-- The loop body of `_get_condition_mask`: an absent column turns the whole
mask all-false and breaks; a singleton value uses `singleMatch`; a longer list
is WHERE-IN (failing on patterns or null markers); an empty list is a no-op. -/
def condMaskGo (rm : String → String → Bool) (cols : List String)
    (rows : List Row) : Cond → List Bool → Except DbError (List Bool)
  | [], mask => .ok mask
  | (key, vals) :: rest, mask =>
    if cols.contains key then
      match vals with
      | [cv] =>
        condMaskGo rm cols rows rest
          ((mask.zip rows).map (fun p => p.1 && singleMatch rm cv (rowGet cols p.2 key)))
      | [] => condMaskGo rm cols rows rest mask
      | _ =>
        if vals.any condValIsPat then .error DbError.invalidConditionRegex
        else if vals.any condValIsNull then .error DbError.invalidConditionNull
        else
          condMaskGo rm cols rows rest
            ((mask.zip rows).map (fun p => p.1 && inMatch vals (rowGet cols p.2 key)))
    else .ok (rows.map (fun _ => false))

/-- `_get_condition_mask`, starting from the all-true mask. -/
def condMask (rm : String → String → Bool) (cols : List String)
    (rows : List Row) (cond : Cond) : Except DbError (List Bool) :=
  condMaskGo rm cols rows cond (rows.map (fun _ => true))

/-- One step of `_update_schema` for a single record key: a known column is a
no-op; under dynamic schema a new column is appended and the whole schema is
re-validated by `_check_columns` before the dataframe column is backfilled
with nulls; under a fixed schema the write is an error. -/
def updateSchema1 (dyn : Bool) (t : Table) (k : String) : Table × Option DbError :=
  if t.schema.contains k then (t, none)
  else if dyn then
    let schema2 := t.schema ++ [k]
    match checkColumns schema2 with
    | some e => ({ t with schema := schema2 }, some e)
    | none => (⟨schema2, t.rows.map (fun r => r ++ [none])⟩, none)
  else (t, some (DbError.unknownColumn k))

/-- `_update_schema`: evolve the schema for every key of the record. -/
def updateSchema (dyn : Bool) (t : Table) : List String → Table × Option DbError
  | [] => (t, none)
  | k :: ks =>
    match updateSchema1 dyn t k with
    | (t2, none) => updateSchema dyn t2 ks
    | (t2, some e) => (t2, some e)

/-- `_check_tname` on an already-lowercased name, with `auto_load=True`: a
missing table is auto-created blank through `load` under dynamic schema, and
is an error otherwise. -/
def checkTnameCore (db : DB) (tn : String) : DB × Option DbError :=
  match alGet db.tables tn with
  | some _ => (db, none)
  | none =>
    if db.dynamicSchema then
      ({ db with tables := alSet db.tables tn ⟨[idCol], []⟩ }, none)
    else (db, some (DbError.tableNotFound tn))

/-- The dataframe `find` returns: its columns, and its rows each keeping the
positional index it had in the table. -/
structure FindRes where
  cols : List String
  rows : List (Nat × Row)
deriving DecidableEq

/-- `dataframe[columns]`: project every row; an absent column is a `KeyError`. -/
def projRows (schema : List String) (rows : List Row) (cols : List String) :
    Except DbError (List Row) :=
  if cols.all (fun c => schema.contains c) then
    .ok (rows.map (fun r => cols.map (fun c => rowGet schema r c)))
  else .error (DbError.keyError ((cols.find? (fun c => !(schema.contains c))).getD ""))

/-- `find` on an already-lowercased table name: a missing table yields an
empty frame; otherwise conditions are validated, the optional column
projection is applied BEFORE matching, the `where` mask filters the frame and
the `where_not` mask (computed on the already-filtered rows) is negated. -/
def findCore (rm : String → String → Bool) (db : DB) (tn : String)
    (w wn : Cond) (columns : List String) : Except DbError FindRes :=
  match alGet db.tables tn with
  | none => .ok ⟨[], []⟩
  | some t =>
    match checkConditions w with
    | some e => .error e
    | none =>
      match checkConditions wn with
      | some e => .error e
      | none =>
        match (if !columns.isEmpty && !t.rows.isEmpty then
                 (projRows t.schema t.rows columns).map (fun rs => (columns, rs))
               else .ok (t.schema, t.rows)) with
        | .error e => .error e
        | .ok (fcols, frows) =>
          match (if !w.isEmpty then condMask rm fcols frows w
                 else .ok (frows.map (fun _ => true))) with
          | .error e => .error e
          | .ok mask =>
            let sel := applyMask (withIdxFrom 0 frows) mask
            match (if !wn.isEmpty then condMask rm fcols (sel.map (·.2)) wn
                   else .ok (sel.map (fun _ => false))) with
            | .error e => .error e
            | .ok mask2 =>
              .ok ⟨fcols, applyMask sel (mask2.map (fun b => !b))⟩

/-- `find` as `upsert` and `delete` invoke it, on conditions they have
already normalized: a missing table still short-circuits to the empty frame,
but an existing table re-runs `_check_conditions`, which now applies
`_check_type_iter(str, ·)` to every (list) value and raises `ValueError`
unless all values are lists of plain strings. -/
def findNormCore (rm : String → String → Bool) (db : DB) (tn : String)
    (w wn : Cond) (columns : List String) : Except DbError FindRes :=
  match alGet db.tables tn with
  | none => .ok ⟨[], []⟩
  | some _ =>
    match checkConditionsNorm w with
    | some e => .error e
    | none =>
      match checkConditionsNorm wn with
      | some e => .error e
      | none => findCore rm db tn w wn columns

/-- The `insert` overlay loop: "Set as many fields as provided in new record,
leave the rest as-is" — write every checked-record field over the
row-generator base. -/
def overlay (base : List (String × Value)) (rec : List (String × String)) :
    List (String × Value) :=
  rec.foldl (fun acc q => alSet acc q.1 (some q.2)) base

/-- `insert` on an already-lowercased table name: resolve table, validate the
record, mint a fresh id (overwriting any caller-supplied one), overlay the
record on the row-generator base, evolve the schema, append the aligned row,
and return the new record (optionally projected to `columns`). -/
def insertCore (db : DB) (tn : String) (record : RawRecord)
    (columns : List String) : Except DbError (List (String × Value)) × DB :=
  match checkTnameCore db tn with
  | (db1, some e) => (.error e, db1)
  | (db1, none) =>
    match checkRecord record with
    | .error e => (.error e, db1)
    | .ok rec =>
      let rid := freshId db1.nextId
      let db2 : DB := { db1 with nextId := db1.nextId + 1 }
      let rec2 := alSet rec idCol rid
      let base := (alGet db2.rowgens tn).getD []
      let recNew := overlay base rec2
      match alGet db2.tables tn with
      | none => (.error (DbError.tableNotFound tn), db2)
      | some t =>
        match updateSchema db2.dynamicSchema t (recNew.map (·.1)) with
        | (t2, some e) => (.error e, { db2 with tables := alSet db2.tables tn t2 })
        | (t2, none) =>
          let newRow := t2.schema.map (fun c => (alGet recNew c).getD none)
          let t3 : Table := { t2 with rows := t2.rows ++ [newRow] }
          let db3 : DB := { db2 with tables := alSet db2.tables tn t3 }
          if columns.isEmpty then (.ok recNew, db3)
          else if columns.all (fun c => (alGet recNew c).isSome) then
            (.ok (columns.map (fun c => (c, (alGet recNew c).getD none))), db3)
          else
            (.error (DbError.keyError
              ((columns.find? (fun c => !(alGet recNew c).isSome)).getD "")), db3)

/-- `delete` on an already-lowercased table name: resolve (auto-creating),
find the matching rows, drop them by index, return them. -/
def deleteCore (rm : String → String → Bool) (db : DB) (tn : String)
    (w wn : Cond) : Except DbError (List (Nat × Row)) × DB :=
  match checkTnameCore db tn with
  | (db1, some e) => (.error e, db1)
  | (db1, none) =>
    match checkConditions w with
    | some e => (.error e, db1)
    | none =>
      match checkConditions wn with
      | some e => (.error e, db1)
      | none =>
        match findNormCore rm db1 tn w wn [] with
        | .error e => (.error e, db1)
        | .ok res =>
          match alGet db1.tables tn with
          | none => (.ok res.rows, db1)
          | some t =>
            let keep := (withIdxFrom 0 t.rows).filter
              (fun p => !(res.rows.any (fun q => q.1 == p.1)))
            let t2 : Table := { t with rows := keep.map (·.2) }
            (.ok res.rows, { db1 with tables := alSet db1.tables tn t2 })

/-- What `upsert` returns: the freshly inserted record, or the updated rows. -/
inductive UpsertOut where
  | inserted (r : List (String × Value))
  | updated (cols : List String) (rows : List Row)
deriving DecidableEq

/-- The record synthesized by the zero-match upsert branch: the checked
`record` with, for each positive condition, its first value (or `None` when
the condition's value list is empty) written over the corresponding field. -/
def synthWhere (rec : List (String × String)) (w : Cond) : RawRecord :=
  w.foldl (fun r p => alSet r p.1 (p.2.headD CondVal.null))
    (rec.map (fun q => (q.1, CondVal.str q.2)))

/-- `df.loc[ixs, k] = v`: set column `k` to `v` on the rows at indices `ixs`. -/
def setCol (t : Table) (ixs : List Nat) (k : String) (v : Value) : Table :=
  let rows2 := (withIdxFrom 0 t.rows).map
    (fun p => if ixs.contains p.1 then setVal t.schema p.2 k v else p.2)
  { t with rows := rows2 }

/-- `upsert` on an already-lowercased table name, following the source: with
no predicates it defers to `insert`; with zero matches it inserts the record
synthesized by `synthWhere` and then applies the conflict check against
`where_not` (a conflicting insert is deleted again and the call fails); with
matches it evolves the schema and writes the record's fields over every
matched row in place. -/
def upsertCore (rm : String → String → Bool) (db : DB) (tn : String)
    (record : RawRecord) (w wn : Cond) (columns : List String) :
    Except DbError UpsertOut × DB :=
  match checkTnameCore db tn with
  | (db1, some e) => (.error e, db1)
  | (db1, none) =>
    match checkConditions w with
    | some e => (.error e, db1)
    | none =>
      match checkConditions wn with
      | some e => (.error e, db1)
      | none =>
        match checkRecord record with
        | .error e => (.error e, db1)
        | .ok rec =>
          if w.isEmpty && wn.isEmpty then
            match insertCore db1 tn record columns with
            | (.ok r, db2) => (.ok (UpsertOut.inserted r), db2)
            | (.error e, db2) => (.error e, db2)
          else
            match findNormCore rm db1 tn w wn [] with
            | .error e => (.error e, db1)
            | .ok res =>
              if res.rows.isEmpty then
                match insertCore db1 tn (synthWhere rec w) columns with
                | (.error e, db2) => (.error e, db2)
                | (.ok recNew, db2) =>
                  match wn.find? (fun p => !(alGet recNew p.1).isSome) with
                  | some p => (.error (DbError.keyError p.1), db2)
                  | none =>
                    if wn.any (fun p => memCond ((alGet recNew p.1).getD none) p.2) then
                      match alGet recNew idCol with
                      | none => (.error (DbError.keyError idCol), db2)
                      | some v =>
                        let dv := match v with
                                  | some s => CondVal.str s
                                  | none => CondVal.null
                        let del := deleteCore rm db2 tn [(idCol, [dv])] []
                        (.error DbError.upsertConflict, del.2)
                    else (.ok (UpsertOut.inserted recNew), db2)
              else
                let ixs := res.rows.map (·.1)
                match alGet db1.tables tn with
                | none => (.error (DbError.tableNotFound tn), db1)
                | some t =>
                  match updateSchema db1.dynamicSchema t (rec.map (·.1)) with
                  | (t2, some e) =>
                    (.error e, { db1 with tables := alSet db1.tables tn t2 })
                  | (t2, none) =>
                    let t3 := rec.foldl (fun tt q => setCol tt ixs q.1 (some q.2)) t2
                    let db2 : DB := { db1 with tables := alSet db1.tables tn t3 }
                    let outRows := ixs.map (fun i => (getN t3.rows i).getD [])
                    if columns.isEmpty then
                      (.ok (UpsertOut.updated t3.schema outRows), db2)
                    else
                      match projRows t3.schema outRows columns with
                      | .ok rs => (.ok (UpsertOut.updated columns rs), db2)
                      | .error e => (.error e, db2)

/-- Public `find`: `_check_tname` lowercases the table name. -/
def find (rm : String → String → Bool) (db : DB) (tname : String)
    (w wn : Cond) (columns : List String) : Except DbError FindRes :=
  findCore rm db (lowerStr tname) w wn columns

/-- Public `insert`: `_check_tname` lowercases the table name. -/
def insert (db : DB) (tname : String) (record : RawRecord)
    (columns : List String) : Except DbError (List (String × Value)) × DB :=
  insertCore db (lowerStr tname) record columns

/-- Public `delete`: `_check_tname` lowercases the table name. -/
def delete (rm : String → String → Bool) (db : DB) (tname : String)
    (w wn : Cond) : Except DbError (List (Nat × Row)) × DB :=
  deleteCore rm db (lowerStr tname) w wn

/-- Public `upsert`: `_check_tname` lowercases the table name. -/
def upsert (rm : String → String → Bool) (db : DB) (tname : String)
    (record : RawRecord) (w wn : Cond) (columns : List String) :
    Except DbError UpsertOut × DB :=
  upsertCore rm db (lowerStr tname) record w wn columns

/-! ### The deferred-save scheduler `_save_defer` (waittime = 0 path).

Threads are modelled as emitted actions: `flushNow` is a spawn of an
immediate `_save_now` flush, `schedWorker` a spawn of the debounce worker
that sleeps for the remaining wait window. -/

/-- Scheduler state: `_save_last`, `_save_queue_len`, `_save_pending_flag`. -/
structure DeferState where
  saveLast : Nat
  queueLen : Nat
  pendingFlag : Bool
deriving DecidableEq

inductive DeferAct where
  | flushNow
  | schedWorker
deriving DecidableEq

/-- One call of `_save_defer()` at time `now` (the `waittime = 0` entry used
by `save()`), returning the new state and the spawned background actions. -/
def saveDeferStep (saveWait saveQueueMax now : Nat) (s : DeferState) :
    DeferState × List DeferAct :=
  let pending := false
  let saveLast := if s.saveLast == 0 then now else s.saveLast
  let waitPart :=
    if saveWait > 0 && decide (now - saveLast > saveWait) then
      (pending, [DeferAct.flushNow])
    else if saveWait > 0 && !pending then
      (true, [DeferAct.schedWorker])
    else (pending, [])
  let queuePart :=
    if saveQueueMax > 0 && decide (s.queueLen > saveQueueMax) then
      (s.queueLen, [DeferAct.flushNow])
    else if saveQueueMax > 0 then (s.queueLen + 1, ([] : List DeferAct))
    else (s.queueLen, [])
  (⟨saveLast, queuePart.1, waitPart.1⟩, waitPart.2 ++ queuePart.2)

/-- `k` consecutive `_save_defer()` calls, all at the same instant `now`
("no elapsed wait time"), from the freshly constructed scheduler state,
accumulating every spawned action. -/
def runDefer (saveWait saveQueueMax now : Nat) : Nat → DeferState × List DeferAct
  | 0 => (⟨0, 0, false⟩, [])
  | k + 1 =>
    let prev := runDefer saveWait saveQueueMax now k
    let step := saveDeferStep saveWait saveQueueMax now prev.1
    (step.1, prev.2 ++ step.2)

/-! ### Well-formedness of a database state. -/

/-- No string occurs twice. -/
def nodupStr : List String → Bool
  | [] => true
  | x :: xs => !(xs.contains x) && nodupStr xs

/-- No value occurs twice. -/
def nodupVal : List Value → Bool
  | [] => true
  | x :: xs => !(xs.contains x) && nodupVal xs

/-- The cell is an id token already minted by the counter. -/
def idBound (next : Nat) (v : Value) : Bool :=
  match v with
  | some s => (List.range next).any (fun m => freshId m == s)
  | none => false

/-- Table invariant: duplicate-free valid schema containing the id column,
rows aligned with it, every row's id a previously minted token. -/
def Table.wfb (next : Nat) (t : Table) : Bool :=
  t.schema.contains idCol && nodupStr t.schema &&
  t.schema.all colnameOk &&
  t.rows.all (fun r => r.length == t.schema.length) &&
  t.rows.all (fun r => idBound next (rowGet t.schema r idCol))

/-- The id cells of every record of every table in a table map. -/
def idsOfTables (l : List (String × Table)) : List Value :=
  l.flatMap (fun p => p.2.rows.map (fun r => rowGet p.2.schema r idCol))

/-- The id cells of every record of every table. -/
def DB.allIds (db : DB) : List Value :=
  idsOfTables db.tables

/-- Database invariant: duplicate-free table names, well-formed tables, and
globally pairwise-distinct record ids. -/
def DB.wfb (db : DB) : Bool :=
  nodupStr (db.tables.map (·.1)) &&
  db.tables.all (fun p => p.2.wfb db.nextId) &&
  nodupVal db.allIds

/-- Shape part of the table invariant (no reference to the id counter). -/
def Table.shapeOk (t : Table) : Bool :=
  t.schema.contains idCol && nodupStr t.schema &&
  t.schema.all colnameOk &&
  t.rows.all (fun r => r.length == t.schema.length)

/-- The checked form of the record synthesized by the zero-match upsert
branch (`synthWhere` once `_check_dict_type` has accepted all its values):
each positive condition's first value written over the caller's record. -/
def synthRec (rec : List (String × String)) (w : Cond) : List (String × String) :=
  w.foldl
    (fun r p =>
      alSet r p.1 (match p.2.headD CondVal.null with | .str s => s | _ => ""))
    rec

/-- The first value of a condition entry, when it is a plain string. -/
def condFirst (w : Cond) (k : String) : Option String :=
  match alGet w k with
  | some vals => match vals.headD CondVal.null with | .str s => some s | _ => none
  | none => none

/-- Abbreviation for stating the effect of `insert`: the record it stores and
returns — the row-generator base overlaid with the checked record, whose id
field is overwritten by the fresh token. -/
def insertResultRecord (db : DB) (tn : String) (rec : List (String × String)) :
    List (String × Value) :=
  overlay ((alGet db.rowgens tn).getD []) (alSet rec idCol (freshId db.nextId))

/-- Abbreviation for stating the effect of `insert` on the target table: the
schema grows by the new columns `δ`, existing rows are backfilled with nulls,
and the aligned new row is appended. -/
def insertResultTable (db : DB) (tn : String) (rec : List (String × String))
    (t : Table) (δ : List String) : Table :=
  ⟨t.schema ++ δ,
   t.rows.map (fun r => r ++ List.replicate δ.length none)
     ++ [(t.schema ++ δ).map
          (fun c => (alGet (insertResultRecord db tn rec) c).getD none)]⟩

/-- Abbreviation for stating the effect of `insert` on the database state. -/
def insertResultDB (db : DB) (tn : String) (rec : List (String × String))
    (t : Table) (δ : List String) : DB :=
  { db with
    nextId := db.nextId + 1,
    tables := alSet db.tables tn (insertResultTable db tn rec t δ) }

end PDDB

namespace PDDB

/-! ### Lemmas about the list primitives -/

theorem alGet_cons_eq {α : Type} (p : String × α) (ps : List (String × α))
    (k : String) (h : p.1 = k) : alGet (p :: ps) k = some p.2 := by
  simp [alGet, h]

theorem alGet_cons_ne {α : Type} (p : String × α) (ps : List (String × α))
    (k : String) (h : p.1 ≠ k) : alGet (p :: ps) k = alGet ps k := by
  simp [alGet, h]

theorem alSet_cons_eq {α : Type} (p : String × α) (ps : List (String × α))
    (k : String) (v : α) (h : p.1 = k) : alSet (p :: ps) k v = (k, v) :: ps := by
  simp [alSet, h]

theorem alSet_cons_ne {α : Type} (p : String × α) (ps : List (String × α))
    (k : String) (v : α) (h : p.1 ≠ k) : alSet (p :: ps) k v = p :: alSet ps k v := by
  simp [alSet, h]

theorem alGet_alSet_self {α : Type} (l : List (String × α)) (k : String) (v : α) :
    alGet (alSet l k v) k = some v := by
  induction l with
  | nil => simp [alGet, alSet]
  | cons p ps ih =>
    by_cases h : p.1 = k
    · rw [alSet_cons_eq p ps k v h, alGet_cons_eq _ _ _ rfl]
    · rw [alSet_cons_ne p ps k v h, alGet_cons_ne _ _ _ h, ih]

theorem alGet_alSet_ne {α : Type} (l : List (String × α)) (k k' : String) (v : α)
    (h : k' ≠ k) : alGet (alSet l k v) k' = alGet l k' := by
  induction l with
  | nil => simp [alGet, alSet, Ne.symm h]
  | cons p ps ih =>
    by_cases hp : p.1 = k
    · rw [alSet_cons_eq p ps k v hp, alGet_cons_ne _ _ _ (Ne.symm h),
        alGet_cons_ne _ _ _ (hp ▸ fun hc => h hc.symm)]
    · rw [alSet_cons_ne p ps k v hp]
      by_cases hp' : p.1 = k'
      · rw [alGet_cons_eq _ _ _ hp', alGet_cons_eq _ _ _ hp']
      · rw [alGet_cons_ne _ _ _ hp', alGet_cons_ne _ _ _ hp', ih]

theorem mem_keys_alSet {α : Type} (l : List (String × α)) (k k' : String) (v : α) :
    k' ∈ (alSet l k v).map (·.1) ↔ k' ∈ l.map (·.1) ∨ k' = k := by
  induction l with
  | nil => simp [alSet]
  | cons p ps ih =>
    by_cases hp : p.1 = k
    · rw [alSet_cons_eq p ps k v hp]
      simp [hp]
      tauto
    · rw [alSet_cons_ne p ps k v hp]
      simp [ih]
      tauto

theorem alGet_eq_none_iff {α : Type} (l : List (String × α)) (k : String) :
    alGet l k = none ↔ k ∉ l.map (·.1) := by
  induction l with
  | nil => simp [alGet]
  | cons p ps ih =>
    by_cases hp : p.1 = k
    · rw [alGet_cons_eq p ps k hp]
      simp [hp]
    · have hne : ¬ k = p.1 := fun hc => hp hc.symm
      rw [alGet_cons_ne p ps k hp, ih, List.map_cons]
      simp [hne]

theorem alGet_isSome_iff {α : Type} (l : List (String × α)) (k : String) :
    (alGet l k).isSome = true ↔ k ∈ l.map (·.1) := by
  induction l with
  | nil => simp [alGet]
  | cons p ps ih =>
    by_cases hp : p.1 = k
    · rw [alGet_cons_eq p ps k hp]
      simp [hp]
    · have hne : ¬ k = p.1 := fun hc => hp hc.symm
      rw [alGet_cons_ne p ps k hp, ih, List.map_cons]
      simp [hne]

theorem nodupStr_iff (l : List String) : nodupStr l = true ↔ l.Nodup := by
  induction l with
  | nil => simp [nodupStr]
  | cons x xs ih => simp [nodupStr, ih, List.contains, List.elem_iff]

theorem nodupVal_iff (l : List Value) : nodupVal l = true ↔ l.Nodup := by
  induction l with
  | nil => simp [nodupVal]
  | cons x xs ih => simp [nodupVal, ih, List.contains, List.elem_iff]

theorem nodup_keys_alSet {α : Type} (l : List (String × α)) (k : String) (v : α)
    (h : (l.map (·.1)).Nodup) : ((alSet l k v).map (·.1)).Nodup := by
  induction l with
  | nil => simp [alSet]
  | cons p ps ih =>
    simp only [List.map_cons, List.nodup_cons] at h
    by_cases hp : p.1 = k
    · rw [alSet_cons_eq p ps k v hp]
      simp only [List.map_cons, List.nodup_cons]
      exact ⟨hp ▸ h.1, h.2⟩
    · rw [alSet_cons_ne p ps k v hp]
      simp only [List.map_cons, List.nodup_cons]
      refine ⟨fun hc => ?_, ih h.2⟩
      rcases (mem_keys_alSet ps k p.1 v).mp hc with hm | he
      · exact h.1 hm
      · exact hp he

end PDDB

namespace PDDB

/-! ### Indexing, mask, and row lemmas -/

theorem getN_map {α β : Type} (f : α → β) (l : List α) (n : Nat) :
    getN (l.map f) n = (getN l n).map f := by
  induction l generalizing n with
  | nil => simp [getN]
  | cons a as ih =>
    cases n with
    | zero => simp [getN]
    | succ m => simp [getN, ih]

theorem getN_append_left {α : Type} (l l' : List α) (n : Nat) (h : n < l.length) :
    getN (l ++ l') n = getN l n := by
  induction l generalizing n with
  | nil => simp at h
  | cons a as ih =>
    cases n with
    | zero => simp [getN]
    | succ m =>
      simp only [List.cons_append, getN]
      exact ih m (Nat.lt_of_succ_lt_succ h)

theorem getN_append_len {α : Type} (l : List α) (x : α) :
    getN (l ++ [x]) l.length = some x := by
  induction l with
  | nil => simp [getN]
  | cons a as ih => simpa [getN] using ih

theorem getN_eq_some_lt {α : Type} (l : List α) (n : Nat) (a : α)
    (h : getN l n = some a) : n < l.length := by
  induction l generalizing n with
  | nil => simp [getN] at h
  | cons b bs ih =>
    cases n with
    | zero => simp
    | succ m =>
      simp only [getN] at h
      exact Nat.succ_lt_succ (ih m h)

theorem getN_lt_isSome {α : Type} (l : List α) (n : Nat) (h : n < l.length) :
    ∃ a, getN l n = some a := by
  induction l generalizing n with
  | nil => simp at h
  | cons b bs ih =>
    cases n with
    | zero => exact ⟨b, rfl⟩
    | succ m => exact ih m (Nat.lt_of_succ_lt_succ h)

theorem getN_ge_none {α : Type} (l : List α) (n : Nat) (h : l.length ≤ n) :
    getN l n = none := by
  induction l generalizing n with
  | nil => simp [getN]
  | cons b bs ih =>
    cases n with
    | zero => simp at h
    | succ m => exact ih m (Nat.le_of_succ_le_succ h)

theorem withIdxFrom_length {α : Type} (n : Nat) (l : List α) :
    (withIdxFrom n l).length = l.length := by
  induction l generalizing n with
  | nil => rfl
  | cons a as ih => simp [withIdxFrom, ih]

theorem withIdxFrom_map_snd {α : Type} (n : Nat) (l : List α) :
    (withIdxFrom n l).map (·.2) = l := by
  induction l generalizing n with
  | nil => rfl
  | cons a as ih => simp [withIdxFrom, ih]

theorem withIdxFrom_append {α : Type} (n : Nat) (l l' : List α) :
    withIdxFrom n (l ++ l') = withIdxFrom n l ++ withIdxFrom (n + l.length) l' := by
  induction l generalizing n with
  | nil => simp [withIdxFrom]
  | cons a as ih =>
    simp only [List.cons_append, withIdxFrom, List.length_cons, List.append_eq]
    rw [ih (n + 1)]
    have h : n + 1 + as.length = n + (as.length + 1) := by omega
    rw [h]

theorem mem_withIdxFrom {α : Type} (n : Nat) (l : List α) (p : Nat × α)
    (h : p ∈ withIdxFrom n l) :
    n ≤ p.1 ∧ p.1 - n < l.length ∧ getN l (p.1 - n) = some p.2 := by
  induction l generalizing n with
  | nil => simp [withIdxFrom] at h
  | cons a as ih =>
    rcases List.mem_cons.mp h with he | hm
    · subst he
      simp [getN]
    · rcases ih (n + 1) hm with ⟨h1, h2, h3⟩
      have hn : n ≤ p.1 := Nat.le_of_succ_le h1
      refine ⟨hn, ?_, ?_⟩
      · have : p.1 - n = (p.1 - (n + 1)) + 1 := by omega
        rw [this]
        simpa using Nat.succ_lt_succ h2
      · have : p.1 - n = (p.1 - (n + 1)) + 1 := by omega
        rw [this]
        simpa [getN] using h3

theorem getN_withIdxFrom {α : Type} (n j : Nat) (l : List α) :
    getN (withIdxFrom n l) j = (getN l j).map (fun a => (n + j, a)) := by
  induction l generalizing n j with
  | nil => simp [withIdxFrom, getN]
  | cons a as ih =>
    cases j with
    | zero => simp [withIdxFrom, getN]
    | succ m =>
      simp only [withIdxFrom, getN, ih]
      have h : n + 1 + m = n + (m + 1) := by omega
      rw [h]

theorem applyMask_length_eq {α : Type} (l : List α) (m : List Bool)
    (h : ∀ b ∈ m, b = true) (hl : l.length = m.length) : applyMask l m = l := by
  induction l generalizing m with
  | nil => cases m <;> simp [applyMask]
  | cons a as ih =>
    cases m with
    | nil => simp at hl
    | cons b bs =>
      have hb : b = true := h b (List.mem_cons_self b bs)
      subst hb
      simp only [applyMask, if_true]
      rw [ih bs (fun x hx => h x (List.mem_cons_of_mem _ hx)) (Nat.succ_injective hl)]

theorem applyMask_all_false {α : Type} (l : List α) (m : List Bool)
    (h : ∀ b ∈ m, b = false) : applyMask l m = [] := by
  induction l generalizing m with
  | nil => simp [applyMask]
  | cons a as ih =>
    cases m with
    | nil => simp [applyMask]
    | cons b bs =>
      have hb : b = false := h b (List.mem_cons_self b bs)
      subst hb
      simp only [applyMask, if_false]
      exact ih bs (fun x hx => h x (List.mem_cons_of_mem _ hx))

theorem applyMask_append {α : Type} (l l' : List α) (m m' : List Bool)
    (h : l.length = m.length) :
    applyMask (l ++ l') (m ++ m') = applyMask l m ++ applyMask l' m' := by
  induction l generalizing m with
  | nil =>
    cases m with
    | nil => simp [applyMask]
    | cons b bs => simp at h
  | cons a as ih =>
    cases m with
    | nil => simp at h
    | cons b bs =>
      simp only [List.cons_append, applyMask, List.append_eq]
      rw [ih bs (Nat.succ_injective h)]
      cases b <;> simp

theorem mem_applyMask {α : Type} (l : List α) (m : List Bool) (a : α)
    (h : a ∈ applyMask l m) : a ∈ l := by
  induction l generalizing m with
  | nil => simp [applyMask] at h
  | cons x xs ih =>
    cases m with
    | nil => simp [applyMask] at h
    | cons b bs =>
      by_cases hb : b = true
      · subst hb
        simp only [applyMask, if_true] at h
        rcases List.mem_cons.mp h with he | hm
        · exact he ▸ List.mem_cons_self x xs
        · exact List.mem_cons_of_mem _ (ih bs hm)
      · have hb' : b = false := Bool.eq_false_iff.mpr hb
        subst hb'
        simp only [applyMask, if_false] at h
        exact List.mem_cons_of_mem _ (ih bs h)

theorem applyMask_withIdxFrom_map {α : Type} (n : Nat) (l : List α)
    (f : α → Bool) :
    applyMask (withIdxFrom n l) (l.map f) = (withIdxFrom n l).filter (fun p => f p.2) := by
  induction l generalizing n with
  | nil => simp [withIdxFrom, applyMask]
  | cons a as ih =>
    simp only [withIdxFrom, List.map_cons, applyMask, List.filter_cons]
    cases hf : f a <;> simp [ih]

end PDDB

namespace PDDB

/-! ### Row access lemmas -/

theorem rowGet_nil_row (s : List String) (c : String) : rowGet s [] c = none := by
  cases s <;> simp [rowGet]

theorem rowGet_not_mem (s : List String) (r : Row) (c : String) (h : c ∉ s) :
    rowGet s r c = none := by
  induction s generalizing r with
  | nil => simp [rowGet]
  | cons a as ih =>
    cases r with
    | nil => simp [rowGet]
    | cons v vs =>
      have ha : a ≠ c := fun hc => h (hc ▸ List.mem_cons_self a as)
      simp only [rowGet, ha, beq_iff_eq, if_false]
      exact ih vs (fun hc => h (List.mem_cons_of_mem _ hc))

theorem rowGet_append_left (s s' : List String) (r r' : Row) (c : String)
    (hl : r.length = s.length) (h : c ∈ s) :
    rowGet (s ++ s') (r ++ r') c = rowGet s r c := by
  induction s generalizing r with
  | nil => simp at h
  | cons a as ih =>
    cases r with
    | nil => simp at hl
    | cons v vs =>
      by_cases ha : a = c
      · simp [rowGet, ha]
      · simp only [List.cons_append, rowGet, ha, beq_iff_eq, if_false]
        exact ih vs (Nat.succ_injective hl)
          (List.mem_of_ne_of_mem (fun hc => ha hc.symm) h)

theorem rowGet_append_right (s s' : List String) (r r' : Row) (c : String)
    (hl : r.length = s.length) (h : c ∉ s) :
    rowGet (s ++ s') (r ++ r') c = rowGet s' r' c := by
  induction s generalizing r with
  | nil =>
    cases r with
    | nil => simp
    | cons v vs => simp at hl
  | cons a as ih =>
    cases r with
    | nil => simp at hl
    | cons v vs =>
      have ha : a ≠ c := fun hc => h (hc ▸ List.mem_cons_self a as)
      simp only [List.cons_append, rowGet, ha, beq_iff_eq, if_false]
      exact ih vs (Nat.succ_injective hl) (fun hc => h (List.mem_cons_of_mem _ hc))

theorem rowGet_all_none (s : List String) (r : Row) (c : String)
    (h : ∀ v ∈ r, v = none) : rowGet s r c = none := by
  induction s generalizing r with
  | nil => simp [rowGet]
  | cons a as ih =>
    cases r with
    | nil => simp [rowGet]
    | cons v vs =>
      have hv : v = none := h v (List.mem_cons_self v vs)
      by_cases ha : a = c
      · simp [rowGet, ha, hv]
      · simp only [rowGet, ha, beq_iff_eq, if_false]
        exact ih vs (fun x hx => h x (List.mem_cons_of_mem _ hx))

theorem rowGet_map_self (s : List String) (f : String → Value) (c : String) :
    rowGet s (s.map f) c = if c ∈ s then f c else none := by
  induction s with
  | nil => simp [rowGet]
  | cons a as ih =>
    by_cases ha : a = c
    · simp [rowGet, ha]
    · simp only [List.map_cons, rowGet, ha, beq_iff_eq, if_false, ih, List.mem_cons]
      have : (c = a ∨ c ∈ as) ↔ c ∈ as := by
        constructor
        · rintro (hc | hc)
          · exact absurd hc.symm ha
          · exact hc
        · exact Or.inr
      rw [if_congr this rfl rfl]

theorem setVal_length (s : List String) (r : Row) (c : String) (v : Value) :
    (setVal s r c v).length = r.length := by
  induction s generalizing r with
  | nil => simp [setVal]
  | cons a as ih =>
    cases r with
    | nil => simp [setVal]
    | cons x xs =>
      by_cases ha : a = c
      · simp [setVal, ha]
      · simp [setVal, ha, ih]

theorem rowGet_setVal_self (s : List String) (r : Row) (c : String) (v : Value)
    (hl : r.length = s.length) (h : c ∈ s) :
    rowGet s (setVal s r c v) c = v := by
  induction s generalizing r with
  | nil => simp at h
  | cons a as ih =>
    cases r with
    | nil => simp at hl
    | cons x xs =>
      by_cases ha : a = c
      · simp [setVal, rowGet, ha]
      · simp only [setVal, rowGet, ha, beq_iff_eq, if_false]
        exact ih xs (Nat.succ_injective hl)
          (List.mem_of_ne_of_mem (fun hc => ha hc.symm) h)

theorem rowGet_setVal_ne (s : List String) (r : Row) (c c' : String) (v : Value)
    (h : c' ≠ c) : rowGet s (setVal s r c v) c' = rowGet s r c' := by
  induction s generalizing r with
  | nil => simp [setVal]
  | cons a as ih =>
    cases r with
    | nil => simp [setVal]
    | cons x xs =>
      by_cases ha : a = c
      · have hcc : ¬ c = c' := fun hc => h hc.symm
        simp [setVal, rowGet, ha, hcc]
      · by_cases ha' : a = c'
        · simp [setVal, rowGet, ha, ha', h]
        · simp only [setVal, rowGet, ha, ha', beq_iff_eq, if_false]
          exact ih xs

end PDDB

namespace PDDB

/-! ### Condition mask lemmas -/

theorem all_str_no_pat (vals : List CondVal) (h : vals.all condValIsStr = true) :
    vals.any condValIsPat = false := by
  rw [List.any_eq_false]
  intro cv hcv
  have := List.all_eq_true.mp h cv hcv
  cases cv <;> simp_all [condValIsStr, condValIsPat]

theorem all_str_no_null (vals : List CondVal) (h : vals.all condValIsStr = true) :
    vals.any condValIsNull = false := by
  rw [List.any_eq_false]
  intro cv hcv
  have := List.all_eq_true.mp h cv hcv
  cases cv <;> simp_all [condValIsStr, condValIsNull]

theorem checkConditions_eq_none_iff (w : Cond) :
    checkConditions w = none ↔ ∀ p ∈ w, condEntryOk p.2 = true := by
  rw [← List.all_eq_true, checkConditions]
  by_cases h : w.all (fun p => condEntryOk p.2) = true
  · simp [h]
  · simp [h]

theorem condEntryOk_two (a b : CondVal) (t : List CondVal) :
    condEntryOk (a :: b :: t) = (a :: b :: t).all condValIsStr := by
  cases a <;> rfl

theorem zip_trues_map {α : Type} (l : List α) (f : α → Bool) :
    ((l.map (fun _ => true)).zip l).map (fun p => p.1 && f p.2) = l.map f := by
  induction l with
  | nil => rfl
  | cons a as ih =>
    simp only [List.map_cons, List.zip_cons_cons, Bool.true_and]
    rw [ih]

theorem condMaskGo_break (rm : String → String → Bool) (cols : List String)
    (rows : List Row) (cond : Cond) (mask : List Bool)
    (hwf : ∀ p ∈ cond, condEntryOk p.2 = true)
    (hmiss : ∃ p ∈ cond, cols.contains p.1 = false) :
    condMaskGo rm cols rows cond mask = .ok (rows.map (fun _ => false)) := by
  induction cond generalizing mask with
  | nil => simp at hmiss
  | cons e rest ih =>
    by_cases hk : cols.contains e.1 = true
    · have hrest : ∃ p ∈ rest, cols.contains p.1 = false := by
        rcases hmiss with ⟨p, hp, hnc⟩
        rcases List.mem_cons.mp hp with he | hm
        · subst he
          rw [hk] at hnc
          exact absurd hnc (by simp)
        · exact ⟨p, hm, hnc⟩
      have hwfr : ∀ p ∈ rest, condEntryOk p.2 = true :=
        fun p hp => hwf p (List.mem_cons_of_mem _ hp)
      rcases e with ⟨key, vals⟩
      rcases vals with _ | ⟨a, _ | ⟨b, t⟩⟩
      · simp only [condMaskGo]
        rw [if_pos hk]
        exact ih _ hwfr hrest
      · simp only [condMaskGo]
        rw [if_pos hk]
        exact ih _ hwfr hrest
      · have hstr : (a :: b :: t).all condValIsStr = true := by
          have := hwf (key, a :: b :: t) (List.mem_cons_self _ _)
          rwa [condEntryOk_two] at this
        have hpat := all_str_no_pat _ hstr
        have hnull := all_str_no_null _ hstr
        simp only [condMaskGo]
        rw [if_pos hk, if_neg (by rw [hpat]; exact Bool.false_ne_true),
          if_neg (by rw [hnull]; exact Bool.false_ne_true)]
        exact ih _ hwfr hrest
    · simp only [condMaskGo]
      rcases e with ⟨key, vals⟩
      rw [if_neg hk]

theorem condMask_break (rm : String → String → Bool) (cols : List String)
    (rows : List Row) (cond : Cond)
    (hwf : ∀ p ∈ cond, condEntryOk p.2 = true)
    (hmiss : ∃ p ∈ cond, cols.contains p.1 = false) :
    condMask rm cols rows cond = .ok (rows.map (fun _ => false)) :=
  condMaskGo_break rm cols rows cond _ hwf hmiss

theorem condMask_single (rm : String → String → Bool) (cols : List String)
    (rows : List Row) (key : String) (cv : CondVal) (hk : cols.contains key = true) :
    condMask rm cols rows [(key, [cv])]
      = .ok (rows.map (fun r => singleMatch rm cv (rowGet cols r key))) := by
  simp only [condMask, condMaskGo]
  rw [if_pos hk]
  rw [zip_trues_map rows (fun r => singleMatch rm cv (rowGet cols r key))]

end PDDB

namespace PDDB

/-! ### Claim C6 -/

/-- **C6.** For every condition entry on an existing column whose value is a
multi-value ("IN") list of more than one element (`a :: b :: t`), the
condition evaluator `_get_condition_mask` fails with an `InvalidCondition`
error (`ValueError`) when any element is a regular-expression pattern, or —
patterns absent — when any element is a null marker; and when every element
is a plain string it succeeds and masks a row exactly when the row's value
for the column is a member of the list. -/
theorem where_in_condition_semantics (rm : String → String → Bool)
    (cols : List String) (rows : List Row) (key : String)
    (a b : CondVal) (t : List CondVal) (hk : cols.contains key = true) :
    ((a :: b :: t).any condValIsPat = true →
      condMask rm cols rows [(key, a :: b :: t)]
        = .error DbError.invalidConditionRegex) ∧
    ((a :: b :: t).any condValIsPat = false →
      (a :: b :: t).any condValIsNull = true →
      condMask rm cols rows [(key, a :: b :: t)]
        = .error DbError.invalidConditionNull) ∧
    ((a :: b :: t).all condValIsStr = true →
      (condMask rm cols rows [(key, a :: b :: t)]
        = .ok (rows.map (fun r => inMatch (a :: b :: t) (rowGet cols r key))) ∧
      ∀ r : Row, inMatch (a :: b :: t) (rowGet cols r key) = true
        ↔ ∃ x, rowGet cols r key = some x ∧ CondVal.str x ∈ (a :: b :: t))) := by
  refine ⟨?_, ?_, ?_⟩
  · intro hpat
    simp only [condMask, condMaskGo]
    rw [if_pos hk, if_pos hpat]
  · intro hpat hnull
    simp only [condMask, condMaskGo]
    rw [if_pos hk, if_neg (by rw [hpat]; exact Bool.false_ne_true), if_pos hnull]
  · intro hstr
    constructor
    · simp only [condMask, condMaskGo]
      rw [if_pos hk, if_neg (by rw [all_str_no_pat _ hstr]; exact Bool.false_ne_true),
        if_neg (by rw [all_str_no_null _ hstr]; exact Bool.false_ne_true)]
      rw [zip_trues_map rows (fun r => inMatch (a :: b :: t) (rowGet cols r key))]
    · intro r
      cases hv : rowGet cols r key with
      | none => simp [inMatch]
      | some x =>
        simp only [inMatch, List.any_eq_true]
        constructor
        · rintro ⟨cv, hcv, hpred⟩
          cases cv with
          | str s =>
            refine ⟨x, rfl, ?_⟩
            have : s = x := by simpa using hpred
            exact this ▸ hcv
          | pat p => simp at hpred
          | null => simp at hpred
        · rintro ⟨y, hy, hmem⟩
          have hxy : y = x := by
            have := Option.some.inj hy
            exact this.symm ▸ rfl
          subst hxy
          exact ⟨CondVal.str y, hmem, by simp⟩

theorem where_in_condition_semantics_witness :
    (condMask (fun _ _ => false) ["a"] [[some "x"], [some "y"]]
        [("a", [CondVal.str "x", CondVal.str "z"])]
      = .ok [true, false]) ∧
    (condMask (fun _ _ => false) ["a"] [[some "x"]]
        [("a", [CondVal.pat "x", CondVal.str "z"])]
      = .error DbError.invalidConditionRegex) ∧
    (condMask (fun _ _ => false) ["a"] [[some "x"]]
        [("a", [CondVal.null, CondVal.str "z"])]
      = .error DbError.invalidConditionNull) := by
  refine ⟨?_, ?_, ?_⟩
  · have h := (where_in_condition_semantics (fun _ _ => false) ["a"]
      [[some "x"], [some "y"]] "a" (CondVal.str "x") (CondVal.str "z") []
      (by decide)).2.2 (by decide)
    rw [h.1]
    decide
  · exact (where_in_condition_semantics (fun _ _ => false) ["a"] [[some "x"]]
      "a" (CondVal.pat "x") (CondVal.str "z") [] (by decide)).1 (by decide)
  · exact ((where_in_condition_semantics (fun _ _ => false) ["a"] [[some "x"]]
      "a" CondVal.null (CondVal.str "z") [] (by decide)).2.1 (by decide) (by decide))

end PDDB

namespace PDDB

/-! ### Claims C7 and C10 -/

/-- **C7.** For every table T and well-formed positive condition `where`
containing at least one column absent from T's schema, `find` returns an
empty result regardless of T's records and of the other condition columns:
the absent column turns the whole mask all-false. -/
theorem find_missing_column_empty (rm : String → String → Bool) (db : DB)
    (tname : String) (w : Cond) (t : Table)
    (ht : alGet db.tables (lowerStr tname) = some t)
    (hwf : checkConditions w = none)
    (hmiss : ∃ p ∈ w, t.schema.contains p.1 = false) :
    find rm db tname w [] [] = .ok ⟨t.schema, []⟩ := by
  have hwne : w.isEmpty = false := by
    rcases hmiss with ⟨p, hp, _⟩
    cases w
    · simp at hp
    · rfl
  have hwfall : ∀ p ∈ w, condEntryOk p.2 = true := (checkConditions_eq_none_iff w).mp hwf
  have hmask := condMask_break rm t.schema t.rows w hwfall hmiss
  have hsel : applyMask (withIdxFrom 0 t.rows) (t.rows.map (fun _ => false)) = [] :=
    applyMask_all_false _ _ (by simp)
  have hnil : checkConditions [] = none := rfl
  simp only [find, findCore, ht, hwf, hmask, hwne, hsel, hnil, List.isEmpty_nil,
    Bool.not_true, Bool.false_and, Bool.not_false, Bool.false_eq_true, if_false,
    if_true, List.map_nil]
  rfl

theorem find_missing_column_empty_witness :
    find (fun _ _ => false)
      ⟨[("t", ⟨["__id__", "a"], [[some "u", some "1"]]⟩)], [], 1, true⟩ "t"
      [("zz", [CondVal.str "1"]), ("a", [CondVal.str "1"])] [] []
      = .ok ⟨["__id__", "a"], []⟩ :=
  find_missing_column_empty (fun _ _ => false)
    ⟨[("t", ⟨["__id__", "a"], [[some "u", some "1"]]⟩)], [], 1, true⟩ "t"
    [("zz", [CondVal.str "1"]), ("a", [CondVal.str "1"])]
    ⟨["__id__", "a"], [[some "u", some "1"]]⟩
    (by decide) (by decide) (by decide)

/-- **C10.** For every non-empty table T, non-empty column projection
`columns` (all projectable), and well-formed positive condition on a single
column `c` with `c` not among `columns`: `find` projects to `columns` BEFORE
condition matching, so the condition column is absent from the projected
frame and the result is empty — even when rows of T satisfy the condition
(the witness below matches a row that does satisfy it). -/
theorem find_projection_before_condition (rm : String → String → Bool) (db : DB)
    (tname : String) (t : Table) (c : String) (vals : List CondVal)
    (columns : List String)
    (ht : alGet db.tables (lowerStr tname) = some t)
    (hentry : condEntryOk vals = true)
    (hrows : t.rows.isEmpty = false)
    (hcols : columns.isEmpty = false)
    (hsub : columns.all (fun cc => t.schema.contains cc) = true)
    (hc : columns.contains c = false) :
    find rm db tname [(c, vals)] [] columns = .ok ⟨columns, []⟩ := by
  have hwf : checkConditions [(c, vals)] = none := by
    rw [checkConditions_eq_none_iff]
    intro p hp
    rcases List.mem_cons.mp hp with he | hm
    · rw [he]
      exact hentry
    · simp at hm
  have hproj : projRows t.schema t.rows columns
      = .ok (t.rows.map (fun r => columns.map (fun cc => rowGet t.schema r cc))) := by
    simp only [projRows, hsub, if_true]
  have hmask := condMask_break rm columns
    (t.rows.map (fun r => columns.map (fun cc => rowGet t.schema r cc)))
    [(c, vals)] (by
      intro p hp
      rcases List.mem_cons.mp hp with he | hm
      · rw [he]; exact hentry
      · simp at hm)
    ⟨(c, vals), List.mem_cons_self _ _, hc⟩
  have hsel : applyMask
      (withIdxFrom 0 (t.rows.map (fun r => columns.map (fun cc => rowGet t.schema r cc))))
      ((t.rows.map (fun r => columns.map (fun cc => rowGet t.schema r cc))).map
        (fun _ => false))
      = [] := applyMask_all_false _ _ (by simp)
  have hnil : checkConditions [] = none := rfl
  simp only [find, findCore, ht, hwf, hnil, hrows, hcols, hproj, hmask, hsel,
    List.isEmpty_nil, List.isEmpty_cons, Bool.not_true, Bool.not_false, Bool.true_and,
    Bool.false_and, Bool.false_eq_true, if_false, if_true, Except.map, List.map_nil]
  rfl

theorem find_projection_before_condition_witness :
    (find (fun _ _ => false)
      ⟨[("t", ⟨["__id__", "a"], [[some "u", some "1"]]⟩)], [], 1, true⟩ "t"
      [("a", [CondVal.str "1"])] [] ["__id__"]
      = .ok ⟨["__id__"], []⟩) ∧
    (find (fun _ _ => false)
      ⟨[("t", ⟨["__id__", "a"], [[some "u", some "1"]]⟩)], [], 1, true⟩ "t"
      [("a", [CondVal.str "1"])] [] []).toOption.map FindRes.rows
      = some [(0, [some "u", some "1"])] := by
  constructor
  · exact find_projection_before_condition (fun _ _ => false)
      ⟨[("t", ⟨["__id__", "a"], [[some "u", some "1"]]⟩)], [], 1, true⟩ "t"
      ⟨["__id__", "a"], [[some "u", some "1"]]⟩ "a" [CondVal.str "1"] ["__id__"]
      (by decide) (by decide) (by decide) (by decide) (by decide) (by decide)
  · decide

end PDDB

namespace PDDB

/-! ### Claim C5: the deferred-save scheduler -/

theorem saveDeferStep_flush_iff (w m now : Nat) (s : DeferState)
    (hdiff : now - (if s.saveLast = 0 then now else s.saveLast) ≤ w) :
    (DeferAct.flushNow ∈ (saveDeferStep w m now s).2 ↔ (0 < m ∧ m < s.queueLen)) := by
  have hnd : ¬ (w < now - (if s.saveLast = 0 then now else s.saveLast)) :=
    Nat.not_lt.mpr hdiff
  by_cases hm : 0 < m <;> by_cases hq : m < s.queueLen <;>
    by_cases hw : 0 < w <;>
      simp [saveDeferStep, hnd, hm, hq, hw]

theorem saveDeferStep_state (w m now : Nat) (s : DeferState)
    (hs : s.saveLast = 0 ∨ s.saveLast = now) :
    (saveDeferStep w m now s).1.saveLast = now ∧
    ((0 < m ∧ ¬ m < s.queueLen) → (saveDeferStep w m now s).1.queueLen = s.queueLen + 1) := by
  have hz : (if s.saveLast == 0 then now else s.saveLast) = now := by
    rcases hs with h | h
    · simp [h]
    · by_cases h0 : s.saveLast = 0
      · simp [h0, h0 ▸ h]
      · simp [h0, h]
  constructor
  · rcases hs with h | h <;> simp [saveDeferStep, h]
  · rintro ⟨hm, hq⟩
    by_cases hw : 0 < w <;> simp [saveDeferStep, hz, hm, hq, hw]

theorem runDefer_no_flush (w m now : Nat) (hm : 0 < m) :
    ∀ k, k ≤ m + 1 →
      (runDefer w m now k).1.queueLen = k ∧
      ((runDefer w m now k).1.saveLast = 0 ∨ (runDefer w m now k).1.saveLast = now) ∧
      DeferAct.flushNow ∉ (runDefer w m now k).2 := by
  intro k
  induction k with
  | zero => exact fun _ => ⟨rfl, Or.inl rfl, by simp [runDefer]⟩
  | succ n ih =>
    intro hk
    rcases ih (Nat.le_of_succ_le hk) with ⟨hql, hsl, hnf⟩
    have hdiff : now - (if (runDefer w m now n).1.saveLast = 0 then now
        else (runDefer w m now n).1.saveLast) ≤ w := by
      rcases hsl with h | h <;> simp [h]
    have hstep := saveDeferStep_flush_iff w m now (runDefer w m now n).1 hdiff
    have hstate := saveDeferStep_state w m now (runDefer w m now n).1 hsl
    have hnlt : ¬ m < (runDefer w m now n).1.queueLen := by
      rw [hql]
      omega
    refine ⟨?_, ?_, ?_⟩
    · show (runDefer w m now (n + 1)).1.queueLen = n + 1
      simp only [runDefer]
      rw [hstate.2 ⟨hm, hnlt⟩, hql]
    · simp only [runDefer]
      exact Or.inr hstate.1
    · simp only [runDefer]
      intro hmem
      rcases List.mem_append.mp hmem with h | h
      · exact hnf h
      · exact hnlt (hstep.mp h).2

theorem runDefer_flush_forced (w m now : Nat) (hm : 0 < m) :
    DeferAct.flushNow ∈ (runDefer w m now (m + 2)).2 := by
  rcases runDefer_no_flush w m now hm (m + 1) (Nat.le_refl _) with ⟨hql, hsl, _⟩
  have hdiff : now - (if (runDefer w m now (m + 1)).1.saveLast = 0 then now
      else (runDefer w m now (m + 1)).1.saveLast) ≤ w := by
    rcases hsl with h | h <;> simp [h]
  have hstep := saveDeferStep_flush_iff w m now (runDefer w m now (m + 1)).1 hdiff
  have : DeferAct.flushNow ∈ (saveDeferStep w m now (runDefer w m now (m + 1)).1).2 :=
    hstep.mpr ⟨hm, by rw [hql]; omega⟩
  show DeferAct.flushNow ∈ (runDefer w m now (m + 2)).2
  simp only [runDefer]
  exact List.mem_append.mpr (Or.inr this)

end PDDB


namespace PDDB

/-- **C5 (counterexample).** The claim says that, with no elapsed wait time,
"one more mutation beyond the bound forces the flush": with
`save_queue_max = 2` the 3rd deferred-save call should force an immediate
flush.  It does not — `_save_defer` checks `_save_queue_len > save_queue_max`
BEFORE incrementing the counter, so after 3 calls at one instant no immediate
flush thread has been spawned; the first forced flush happens on call 4. -/
theorem deferred_save_off_by_one_counterexample :
    DeferAct.flushNow ∉ (runDefer 1 2 5 3).2 ∧
    DeferAct.flushNow ∈ (runDefer 1 2 5 4).2 := by
  decide

/-- **C5 (amended).** Under the deferred-save policy with no elapsed wait
time: no flush is forced during the first `save_queue_max + 1` deferred-save
calls; the flush is first forced on the `(save_queue_max + 2)`-th call (two
mutations beyond the bound, not one); and a single call forces an immediate
flush exactly when the stored counter of previously queued mutations exceeds
`save_queue_max` (the counter is incremented otherwise). -/
theorem deferred_save_queue_bound (w m now : Nat) (hm : 0 < m) :
    (∀ k, k ≤ m + 1 → DeferAct.flushNow ∉ (runDefer w m now k).2) ∧
    DeferAct.flushNow ∈ (runDefer w m now (m + 2)).2 ∧
    (∀ s : DeferState, now - (if s.saveLast = 0 then now else s.saveLast) ≤ w →
      (DeferAct.flushNow ∈ (saveDeferStep w m now s).2 ↔ m < s.queueLen)) := by
  refine ⟨fun k hk => (runDefer_no_flush w m now hm k hk).2.2,
    runDefer_flush_forced w m now hm, fun s hdiff => ?_⟩
  rw [saveDeferStep_flush_iff w m now s hdiff]
  exact and_iff_right hm

theorem deferred_save_queue_bound_witness :
    (DeferAct.flushNow ∉ (runDefer 1 2 5 3).2) ∧
    DeferAct.flushNow ∈ (runDefer 1 2 5 4).2 ∧
    (DeferAct.flushNow ∈ (saveDeferStep 1 2 5 ⟨5, 3, true⟩).2 ↔ 2 < 3) := by
  have h := deferred_save_queue_bound 1 2 5 (by decide)
  exact ⟨h.1 3 (by decide), h.2.1, h.2.2 ⟨5, 3, true⟩ (by decide)⟩

end PDDB

namespace PDDB

/-! ### Claim C2 -/

theorem checkTnameCore_idem (db db1 : DB) (tn : String)
    (h : checkTnameCore db tn = (db1, none)) : checkTnameCore db1 tn = (db1, none) := by
  unfold checkTnameCore at h ⊢
  cases halg : alGet db.tables tn with
  | some t =>
    rw [halg] at h
    cases h
    rw [halg]
  | none =>
    rw [halg] at h
    by_cases hdyn : db.dynamicSchema = true
    · simp only [hdyn, if_true] at h
      cases h
      simp [alGet_alSet_self]
    · simp only [hdyn] at h
      simp at h

/-- **C2.** For every table and record, `upsert` with no `where` and no
`where_not` conditions behaves identically to `insert`: it performs the very
same state transition (so it stores the same record, same generated id and
all) and returns the inserted record. -/
theorem upsert_no_predicates_is_insert (rm : String → String → Bool) (db : DB)
    (tname : String) (record : RawRecord) (columns : List String) :
    upsert rm db tname record [] [] columns =
      (match insert db tname record columns with
       | (.ok r, db2) => (.ok (UpsertOut.inserted r), db2)
       | (.error e, db2) => (.error e, db2)) := by
  unfold upsert insert upsertCore
  have hnil : checkConditions [] = none := rfl
  rcases hct : checkTnameCore db (lowerStr tname) with ⟨db1, oe⟩
  cases oe with
  | some e =>
    unfold insertCore
    rw [hct]
  | none =>
    have hct2 := checkTnameCore_idem db db1 (lowerStr tname) hct
    rw [hnil]
    cases hcr : checkRecord record with
    | error e =>
      unfold insertCore
      rw [hct, hcr]
    | ok rec =>
      show (match insertCore db1 (lowerStr tname) record columns with
            | (.ok r, db2) => (Except.ok (UpsertOut.inserted r), db2)
            | (.error e, db2) => (Except.error e, db2))
          = _
      unfold insertCore
      rw [hct, hct2]
end PDDB

namespace PDDB

/-! ### Schema evolution lemmas -/

theorem checkColumns_ok (cols : List String) (hid : idCol ∈ cols)
    (hok : ∀ c ∈ cols, colnameOk c = true) : checkColumns cols = none := by
  have hc : cols.contains idCol = true := List.elem_iff.mpr hid
  have hf : cols.find? (fun c => !(colnameOk c)) = none := by
    rw [List.find?_eq_none]
    intro c hcm
    rw [hok c hcm]
    simp
  simp [checkColumns, hc, hf, hid]

theorem updateSchema1_mem (t : Table) (k : String) (hk : k ∈ t.schema) :
    updateSchema1 true t k = (t, none) := by
  simp [updateSchema1, hk]

theorem updateSchema1_new (t : Table) (k : String) (hk : k ∉ t.schema)
    (hid : idCol ∈ t.schema)
    (hok : ∀ c ∈ t.schema, colnameOk c = true) (hkok : colnameOk k = true) :
    updateSchema1 true t k
      = (⟨t.schema ++ [k], t.rows.map (fun r => r ++ [none])⟩, none) := by
  have hchk : checkColumns (t.schema ++ [k]) = none := by
    apply checkColumns_ok
    · exact List.mem_append_left _ hid
    · intro c hcm
      rcases List.mem_append.mp hcm with h | h
      · exact hok c h
      · rw [List.mem_singleton.mp h]
        exact hkok
  simp [updateSchema1, hk, hchk]

theorem updateSchema_dyn_char (keys : List String) (t : Table)
    (hid : idCol ∈ t.schema)
    (hok : ∀ c ∈ t.schema, colnameOk c = true)
    (hkeys : ∀ k ∈ keys, colnameOk k = true) :
    ∃ δ : List String,
      updateSchema true t keys
        = (⟨t.schema ++ δ, t.rows.map (fun r => r ++ List.replicate δ.length none)⟩,
           none) ∧
      (∀ c ∈ δ, c ∈ keys ∧ c ∉ t.schema) ∧
      (∀ k ∈ keys, k ∈ t.schema ++ δ) ∧
      δ.Nodup := by
  induction keys generalizing t with
  | nil =>
    refine ⟨[], ?_, by simp, by simp, List.nodup_nil⟩
    simp [updateSchema]
  | cons k ks ih =>
    have hkok : colnameOk k = true := hkeys k (List.mem_cons_self _ _)
    have hkeys' : ∀ k' ∈ ks, colnameOk k' = true :=
      fun k' hk' => hkeys k' (List.mem_cons_of_mem _ hk')
    by_cases hk : k ∈ t.schema
    · rcases ih t hid hok hkeys' with ⟨δ, heq, hδ, hcov, hnd⟩
      refine ⟨δ, ?_, ?_, ?_, hnd⟩
      · simp only [updateSchema, updateSchema1_mem t k hk, heq]
      · exact fun c hc => ⟨List.mem_cons_of_mem _ (hδ c hc).1, (hδ c hc).2⟩
      · intro k' hk'
        rcases List.mem_cons.mp hk' with he | hm
        · exact he ▸ List.mem_append_left _ hk
        · exact hcov k' hm
    · have h1 := updateSchema1_new t k hk hid hok hkok
      have hid1 : idCol ∈ (⟨t.schema ++ [k],
          t.rows.map (fun r => r ++ [none])⟩ : Table).schema :=
        List.mem_append_left _ hid
      have hok1 : ∀ c ∈ (⟨t.schema ++ [k],
          t.rows.map (fun r => r ++ [none])⟩ : Table).schema, colnameOk c = true := by
        intro c hcm
        rcases List.mem_append.mp hcm with h | h
        · exact hok c h
        · rw [List.mem_singleton.mp h]
          exact hkok
      rcases ih ⟨t.schema ++ [k], t.rows.map (fun r => r ++ [none])⟩ hid1 hok1 hkeys'
        with ⟨δ, heq, hδ, hcov, hnd⟩
      have hs : (t.schema ++ [k]) ++ δ = t.schema ++ (k :: δ) := by
        simp
      have hr : (t.rows.map (fun r => r ++ [none])).map
            (fun r => r ++ List.replicate δ.length none)
          = t.rows.map (fun r => r ++ List.replicate (δ.length + 1) none) := by
        rw [List.map_map]
        apply List.map_congr_left
        intro r _
        simp [Function.comp, List.replicate_succ, List.append_assoc]
      refine ⟨k :: δ, ?_, ?_, ?_, ?_⟩
      · simp only [updateSchema, h1, heq, List.length_cons]
        rw [hs, hr]
      · intro c hc
        rcases List.mem_cons.mp hc with he | hm
        · subst he
          exact ⟨List.mem_cons_self _ _, hk⟩
        · have h2 := hδ c hm
          refine ⟨List.mem_cons_of_mem _ h2.1, fun hcs => h2.2 ?_⟩
          exact List.mem_append_left _ hcs
      · intro k' hk'
        rcases List.mem_cons.mp hk' with he | hm
        · subst he
          exact List.mem_append_right _ (List.mem_cons_self _ _)
        · have h2 := hcov k' hm
          simp only [List.append_assoc, List.singleton_append] at h2
          exact h2
      · rw [List.nodup_cons]
        refine ⟨fun hc => ?_, hnd⟩
        exact (hδ k hc).2 (List.mem_append_right _ (List.mem_cons_self _ _))

theorem updateSchema_fixed_error (keys : List String) (t : Table) (C : String)
    (hC : C ∈ keys) (hCn : C ∉ t.schema)
    (hothers : ∀ k ∈ keys, k ≠ C → k ∈ t.schema) :
    updateSchema false t keys = (t, some (DbError.unknownColumn C)) := by
  induction keys with
  | nil => simp at hC
  | cons k ks ih =>
    by_cases hkC : k = C
    · subst hkC
      have h1 : updateSchema1 false t k = (t, some (DbError.unknownColumn k)) := by
        simp [updateSchema1, hCn]
      simp only [updateSchema, h1]
    · have hkm : k ∈ t.schema :=
        hothers k (List.mem_cons_self _ _) hkC
      have h1 : updateSchema1 false t k = (t, none) := by
        simp [updateSchema1, hkm]
      simp only [updateSchema, h1]
      exact ih (by
          rcases List.mem_cons.mp hC with he | hm
          · exact absurd he.symm hkC
          · exact hm)
        (fun k' hk' => hothers k' (List.mem_cons_of_mem _ hk'))


/-! ### Record check and overlay lemmas -/

theorem checkRecord_map_str (rec : List (String × String)) :
    checkRecord (rec.map (fun q => (q.1, CondVal.str q.2))) = .ok rec := by
  have hall : (rec.map (fun q => (q.1, CondVal.str q.2))).all
      (fun p => condValIsStr p.2) = true := by
    rw [List.all_eq_true]
    intro p hp
    rcases List.mem_map.mp hp with ⟨q, _, hq⟩
    rw [← hq]
    rfl
  simp only [checkRecord, hall, if_true]
  rw [List.map_map]
  show Except.ok (rec.map (fun q => q)) = Except.ok rec
  rw [List.map_id']

theorem checkRecord_ok_keys (r : RawRecord) (rec : List (String × String))
    (h : checkRecord r = .ok rec) : rec.map (·.1) = r.map (·.1) := by
  unfold checkRecord at h
  by_cases hall : r.all (fun p => condValIsStr p.2) = true
  · rw [if_pos hall] at h
    cases h
    rw [List.map_map]
    rfl
  · rw [if_neg hall] at h
    cases h

theorem alGet_overlay_not_mem (base : List (String × Value))
    (rec : List (String × String)) (k : String) (h : k ∉ rec.map (·.1)) :
    alGet (overlay base rec) k = alGet base k := by
  induction rec generalizing base with
  | nil => rfl
  | cons q rest ih =>
    have hne : k ≠ q.1 := by
      intro hc
      exact h (hc ▸ List.mem_cons_self _ _)
    have h' : k ∉ rest.map (·.1) := fun hc => h (List.mem_cons_of_mem _ hc)
    show alGet (overlay (alSet base q.1 (some q.2)) rest) k = alGet base k
    rw [ih (alSet base q.1 (some q.2)) h', alGet_alSet_ne base q.1 k (some q.2) hne]

theorem alGet_overlay_mem (base : List (String × Value))
    (rec : List (String × String)) (k : String)
    (hnd : (rec.map (·.1)).Nodup) (h : k ∈ rec.map (·.1)) :
    alGet (overlay base rec) k = (alGet rec k).map some := by
  induction rec generalizing base with
  | nil => simp at h
  | cons q rest ih =>
    simp only [List.map_cons, List.nodup_cons] at hnd
    by_cases hk : k = q.1
    · subst hk
      show alGet (overlay (alSet base q.1 (some q.2)) rest) q.1 = _
      rw [alGet_overlay_not_mem _ _ _ hnd.1, alGet_alSet_self,
        alGet_cons_eq q rest q.1 rfl]
      rfl
    · have hm : k ∈ rest.map (·.1) := by
        rcases List.mem_cons.mp h with he | hm
        · exact absurd he hk
        · exact hm
      show alGet (overlay (alSet base q.1 (some q.2)) rest) k = _
      rw [ih (alSet base q.1 (some q.2)) hnd.2 hm,
        alGet_cons_ne q rest k (fun hc => hk hc.symm)]

theorem mem_keys_overlay (base : List (String × Value))
    (rec : List (String × String)) (k : String) :
    k ∈ (overlay base rec).map (·.1) ↔ k ∈ base.map (·.1) ∨ k ∈ rec.map (·.1) := by
  induction rec generalizing base with
  | nil => simp [overlay]
  | cons q rest ih =>
    show k ∈ (overlay (alSet base q.1 (some q.2)) rest).map (·.1) ↔ _
    rw [ih (alSet base q.1 (some q.2))]
    simp only [mem_keys_alSet, List.map_cons, List.mem_cons]
    tauto

theorem nodup_keys_overlay (base : List (String × Value))
    (rec : List (String × String)) (h : (base.map (·.1)).Nodup) :
    ((overlay base rec).map (·.1)).Nodup := by
  induction rec generalizing base with
  | nil => exact h
  | cons q rest ih =>
    exact ih (alSet base q.1 (some q.2)) (nodup_keys_alSet base q.1 (some q.2) h)



/-! ### Characterization of a successful insert -/

theorem colnameOk_idCol : colnameOk idCol = true := by decide

theorem insertCore_char (db : DB) (tn : String) (record : RawRecord)
    (t : Table) (rec : List (String × String))
    (ht : alGet db.tables tn = some t)
    (hrec : checkRecord record = .ok rec)
    (hdyn : db.dynamicSchema = true)
    (hid : idCol ∈ t.schema)
    (hok : ∀ c ∈ t.schema, colnameOk c = true)
    (hbase : ∀ k ∈ ((alGet db.rowgens tn).getD []).map (·.1), colnameOk k = true)
    (hkrec : ∀ k ∈ rec.map (·.1), colnameOk k = true) :
    ∃ δ : List String,
      insertCore db tn record []
        = (.ok (insertResultRecord db tn rec), insertResultDB db tn rec t δ) ∧
      (∀ c ∈ δ, c ∈ (insertResultRecord db tn rec).map (·.1) ∧ c ∉ t.schema) ∧
      (∀ k ∈ (insertResultRecord db tn rec).map (·.1), k ∈ t.schema ++ δ) ∧
      δ.Nodup := by
  have hct : checkTnameCore db tn = (db, none) := by
    unfold checkTnameCore
    rw [ht]
  have hkeysNew : ∀ k ∈ (insertResultRecord db tn rec).map (·.1),
      colnameOk k = true := by
    intro k hk
    rcases (mem_keys_overlay _ _ k).mp hk with hb | hr
    · exact hbase k hb
    · rcases (mem_keys_alSet _ _ _ _).mp hr with hm | he
      · exact hkrec k hm
      · exact he ▸ colnameOk_idCol
  rcases updateSchema_dyn_char ((insertResultRecord db tn rec).map (·.1)) t hid hok
      hkeysNew
    with ⟨δ, heq, hδ, hcov, hnd⟩
  refine ⟨δ, ?_, fun c hc => hδ c hc, hcov, hnd⟩
  simp only [insertResultRecord] at heq
  simp only [insertCore, hct, hrec, ht, hdyn, heq, List.isEmpty_nil, if_true,
    insertResultDB, insertResultTable, insertResultRecord]

end PDDB

namespace PDDB

theorem getN_mem {α : Type} (l : List α) (n : Nat) (a : α) (h : getN l n = some a) :
    a ∈ l := by
  induction l generalizing n with
  | nil => simp [getN] at h
  | cons b bs ih =>
    cases n with
    | zero =>
      cases h
      exact List.mem_cons_self _ _
    | succ m => exact List.mem_cons_of_mem _ (ih m h)

theorem shapeOk_unpack (t : Table) (h : t.shapeOk = true) :
    idCol ∈ t.schema ∧ t.schema.Nodup ∧ (∀ c ∈ t.schema, colnameOk c = true) ∧
      (∀ r ∈ t.rows, r.length = t.schema.length) := by
  unfold Table.shapeOk at h
  simp only [Bool.and_eq_true] at h
  refine ⟨List.elem_iff.mp h.1.1.1, (nodupStr_iff _).mp h.1.1.2,
    List.all_eq_true.mp h.1.2, ?_⟩
  intro r hr
  have := List.all_eq_true.mp h.2 r hr
  exact beq_iff_eq.mp this

theorem rowGet_pad (s δ : List String) (r : Row) (c : String)
    (hl : r.length = s.length) :
    rowGet (s ++ δ) (r ++ List.replicate δ.length none) c = rowGet s r c := by
  by_cases hc : c ∈ s
  · exact rowGet_append_left s δ r _ c hl hc
  · rw [rowGet_append_right s δ r _ c hl hc, rowGet_not_mem s r c hc]
    exact rowGet_all_none δ _ c (fun v hv => List.eq_of_mem_replicate hv)

/-! ### Claim C3 -/

/-- **C3.** Writing a record with a column `C` not in the table's schema:
under dynamic schema (the write routed through `_update_schema`, here via
`insert`) appends `C` to the schema and every previously existing record
reports null for `C`; under a fixed schema the same write fails with the
`UnknownColumn` error. -/
theorem dynamic_schema_evolution :
    (∀ (db : DB) (tname : String) (record : RawRecord) (t : Table)
        (rec : List (String × String)) (C : String),
      alGet db.tables (lowerStr tname) = some t →
      checkRecord record = .ok rec →
      db.dynamicSchema = true →
      t.shapeOk = true →
      alGet db.rowgens (lowerStr tname) = none →
      (∀ k ∈ rec.map (·.1), colnameOk k = true) →
      C ∈ rec.map (·.1) →
      C ∉ t.schema →
      ∃ r db2 t3, insert db tname record [] = (.ok r, db2) ∧
        alGet db2.tables (lowerStr tname) = some t3 ∧
        C ∈ t3.schema ∧
        t3.rows.length = t.rows.length + 1 ∧
        (∀ i, i < t.rows.length →
          rowGet t3.schema ((getN t3.rows i).getD []) C = none)) ∧
    (∀ (db : DB) (tname : String) (record : RawRecord) (t : Table)
        (rec : List (String × String)) (C : String),
      alGet db.tables (lowerStr tname) = some t →
      checkRecord record = .ok rec →
      db.dynamicSchema = false →
      idCol ∈ t.schema →
      alGet db.rowgens (lowerStr tname) = none →
      C ∈ rec.map (·.1) →
      C ∉ t.schema →
      (∀ k ∈ rec.map (·.1), k ≠ C → k ∈ t.schema) →
      (insert db tname record []).1 = .error (DbError.unknownColumn C)) := by
  constructor
  · intro db tname record t rec C ht hrec hdyn hshape hnorg hkrec hC hCn
    rcases shapeOk_unpack t hshape with ⟨hid, _, hok, haligned⟩
    have hbase : ∀ k ∈ ((alGet db.rowgens (lowerStr tname)).getD []).map (·.1),
        colnameOk k = true := by
      rw [hnorg]
      intro k hk
      simp at hk
    rcases insertCore_char db (lowerStr tname) record t rec ht hrec hdyn hid hok
        hbase hkrec with ⟨δ, heq, hδ, hcov, hnd⟩
    have hCnew : C ∈ (insertResultRecord db (lowerStr tname) rec).map (·.1) := by
      unfold insertResultRecord
      rw [mem_keys_overlay]
      exact Or.inr ((mem_keys_alSet _ _ _ _).mpr (Or.inl hC))
    refine ⟨insertResultRecord db (lowerStr tname) rec,
      insertResultDB db (lowerStr tname) rec t δ,
      insertResultTable db (lowerStr tname) rec t δ, ?_, ?_, ?_, ?_, ?_⟩
    · show insertCore db (lowerStr tname) record [] = _
      rw [heq]
    · unfold insertResultDB
      exact alGet_alSet_self _ _ _
    · exact hcov C hCnew
    · unfold insertResultTable
      simp
    · intro i hi
      unfold insertResultTable
      have hi' : i < (t.rows.map
          (fun r => r ++ List.replicate δ.length none)).length := by
        simpa using hi
      rcases getN_lt_isSome t.rows i hi with ⟨r0, hr0⟩
      have hget : getN ((t.rows.map (fun r => r ++ List.replicate δ.length none))
            ++ [(t.schema ++ δ).map (fun c =>
              (alGet (insertResultRecord db (lowerStr tname) rec) c).getD none)]) i
          = some (r0 ++ List.replicate δ.length none) := by
        rw [getN_append_left _ _ i hi', getN_map, hr0]
        rfl
      show rowGet (t.schema ++ δ) _ C = none
      rw [hget]
      simp only [Option.getD_some]
      rw [rowGet_pad t.schema δ r0 C (haligned r0 (getN_mem _ _ _ hr0))]
      exact rowGet_not_mem t.schema r0 C hCn
  · intro db tname record t rec C ht hrec hfix hid hnorg hC hCn hothers
    have hct : checkTnameCore db (lowerStr tname) = (db, none) := by
      unfold checkTnameCore
      rw [ht]
    have hCne : C ≠ idCol := fun hc => hCn (hc ▸ hid)
    have hupd : updateSchema false t
        ((overlay ((alGet db.rowgens (lowerStr tname)).getD [])
          (alSet rec idCol (freshId db.nextId))).map (·.1))
        = (t, some (DbError.unknownColumn C)) := by
      apply updateSchema_fixed_error
      · rw [mem_keys_overlay]
        exact Or.inr ((mem_keys_alSet _ _ _ _).mpr (Or.inl hC))
      · exact hCn
      · intro k hk hkC
        rcases (mem_keys_overlay _ _ k).mp hk with hb | hr
        · rw [hnorg] at hb
          simp at hb
        · rcases (mem_keys_alSet _ _ _ _).mp hr with hm | he
          · exact hothers k hm hkC
          · exact he ▸ hid
    simp only [insert, insertCore, hct, hrec, ht, hfix, hupd]

end PDDB

namespace PDDB

theorem dynamic_schema_evolution_witness :
    (∃ r db2 t3,
      insert (⟨[("t", ⟨["__id__"], [[some "u"]]⟩)], [], 1, true⟩ : DB) "t"
          [("c", CondVal.str "2")] [] = (.ok r, db2) ∧
      alGet db2.tables (lowerStr "t") = some t3 ∧ "c" ∈ t3.schema ∧
      t3.rows.length = 1 + 1 ∧
      (∀ i, i < 1 → rowGet t3.schema ((getN t3.rows i).getD []) "c" = none)) ∧
    (insert (⟨[("t", ⟨["__id__"], []⟩)], [], 0, false⟩ : DB) "t"
        [("c", CondVal.str "2")] []).1 = .error (DbError.unknownColumn "c") := by
  constructor
  · have h := dynamic_schema_evolution.1
      (⟨[("t", ⟨["__id__"], [[some "u"]]⟩)], [], 1, true⟩ : DB) "t"
      [("c", CondVal.str "2")] ⟨["__id__"], [[some "u"]]⟩ [("c", "2")] "c"
      (by decide) (by decide) rfl (by decide) (by decide) (by decide) (by decide)
      (by decide)
    simpa using h
  · exact dynamic_schema_evolution.2
      (⟨[("t", ⟨["__id__"], []⟩)], [], 0, false⟩ : DB) "t"
      [("c", CondVal.str "2")] ⟨["__id__"], []⟩ [("c", "2")] "c"
      (by decide) (by decide) rfl (by decide) (by decide) (by decide) (by decide)
      (by decide)

end PDDB

namespace PDDB

/-! ### Fresh id and invariant lemmas -/

theorem freshId_inj (m n : Nat) (h : freshId m = freshId n) : m = n := by
  unfold freshId at h
  have hd := congrArg String.data h
  simp only [String.data] at hd
  have := congrArg List.length hd
  simpa using this

theorem idBound_iff (next : Nat) (v : Value) :
    idBound next v = true ↔ ∃ m, m < next ∧ v = some (freshId m) := by
  cases v with
  | none => simp [idBound]
  | some s =>
    simp only [idBound, List.any_eq_true, List.mem_range, beq_iff_eq]
    constructor
    · rintro ⟨m, hm, he⟩
      exact ⟨m, hm, by rw [he]⟩
    · rintro ⟨m, hm, he⟩
      exact ⟨m, hm, (Option.some.inj he).symm⟩

theorem idBound_mono (next next' : Nat) (v : Value) (h : next ≤ next')
    (hb : idBound next v = true) : idBound next' v = true := by
  rw [idBound_iff] at hb ⊢
  rcases hb with ⟨m, hm, he⟩
  exact ⟨m, Nat.lt_of_lt_of_le hm h, he⟩

theorem tableWfb_unpack (next : Nat) (t : Table) (h : t.wfb next = true) :
    t.shapeOk = true ∧ ∀ r ∈ t.rows, idBound next (rowGet t.schema r idCol) = true := by
  unfold Table.wfb at h
  simp only [Bool.and_eq_true] at h
  constructor
  · unfold Table.shapeOk
    simp only [Bool.and_eq_true]
    exact ⟨⟨⟨h.1.1.1.1, h.1.1.1.2⟩, h.1.1.2⟩, h.1.2⟩
  · exact List.all_eq_true.mp h.2

theorem tableWfb_pack (next : Nat) (t : Table) (hs : t.shapeOk = true)
    (hb : ∀ r ∈ t.rows, idBound next (rowGet t.schema r idCol) = true) :
    t.wfb next = true := by
  unfold Table.shapeOk at hs
  simp only [Bool.and_eq_true] at hs
  unfold Table.wfb
  simp only [Bool.and_eq_true]
  exact ⟨⟨⟨⟨hs.1.1.1, hs.1.1.2⟩, hs.1.2⟩, hs.2⟩, List.all_eq_true.mpr hb⟩

theorem tableWfb_mono (next next' : Nat) (t : Table) (h : next ≤ next')
    (hw : t.wfb next = true) : t.wfb next' = true := by
  rcases tableWfb_unpack next t hw with ⟨hs, hb⟩
  exact tableWfb_pack next' t hs
    (fun r hr => idBound_mono next next' _ h (hb r hr))

theorem mem_allIds (db : DB) (v : Value) (h : v ∈ db.allIds) :
    ∃ p ∈ db.tables, ∃ r ∈ p.2.rows, v = rowGet p.2.schema r idCol := by
  unfold DB.allIds idsOfTables at h
  rcases List.mem_flatMap.mp h with ⟨p, hp, hv⟩
  rcases List.mem_map.mp hv with ⟨r, hr, he⟩
  exact ⟨p, hp, r, hr, he.symm⟩

theorem mem_alSet {α : Type} (l : List (String × α)) (k : String) (v : α)
    (p : String × α) (h : p ∈ alSet l k v) : p = (k, v) ∨ p ∈ l := by
  induction l with
  | nil =>
    simp [alSet] at h
    exact Or.inl h
  | cons q qs ih =>
    by_cases hq : q.1 = k
    · rw [alSet_cons_eq q qs k v hq] at h
      rcases List.mem_cons.mp h with he | hm
      · exact Or.inl he
      · exact Or.inr (List.mem_cons_of_mem _ hm)
    · rw [alSet_cons_ne q qs k v hq] at h
      rcases List.mem_cons.mp h with he | hm
      · exact Or.inr (he ▸ List.mem_cons_self _ _)
      · rcases ih hm with h1 | h2
        · exact Or.inl h1
        · exact Or.inr (List.mem_cons_of_mem _ h2)

theorem keys_alSet_of_mem {α : Type} (l : List (String × α)) (k : String) (v : α)
    (h : k ∈ l.map (·.1)) : (alSet l k v).map (·.1) = l.map (·.1) := by
  induction l with
  | nil => simp at h
  | cons q qs ih =>
    by_cases hq : q.1 = k
    · rw [alSet_cons_eq q qs k v hq]
      simp [hq]
    · rw [alSet_cons_ne q qs k v hq]
      simp only [List.map_cons]
      have hm : k ∈ qs.map (·.1) := by
        rcases List.mem_cons.mp h with he | hm
        · exact absurd he.symm hq
        · exact hm
      rw [ih hm]

theorem alSet_split {α : Type} (l : List (String × α)) (k : String) (v w : α)
    (hnd : (l.map (·.1)).Nodup) (hget : alGet l k = some v) :
    ∃ l1 l2, l = l1 ++ (k, v) :: l2 ∧ alSet l k w = l1 ++ (k, w) :: l2 ∧
      k ∉ l1.map (·.1) ∧ k ∉ l2.map (·.1) := by
  induction l with
  | nil => simp [alGet] at hget
  | cons q qs ih =>
    simp only [List.map_cons, List.nodup_cons] at hnd
    by_cases hq : q.1 = k
    · rw [alGet_cons_eq q qs k hq] at hget
      have hv : q.2 = v := Option.some.inj hget
      refine ⟨[], qs, ?_, ?_, by simp, ?_⟩
      · simp only [List.nil_append]
        rw [← hq, ← hv]
      · rw [alSet_cons_eq q qs k w hq]
        simp
      · rw [← hq]
        exact hnd.1
    · rw [alGet_cons_ne q qs k hq] at hget
      rcases ih hnd.2 hget with ⟨l1, l2, he, hs, h1, h2⟩
      refine ⟨q :: l1, l2, by rw [List.cons_append, ← he], ?_, ?_, h2⟩
      · rw [alSet_cons_ne q qs k w hq, List.cons_append, hs]
      · simp only [List.map_cons, List.mem_cons]
        rintro (hc | hc)
        · exact hq hc.symm
        · exact h1 hc

end PDDB

namespace PDDB

theorem alGet_mem_pair {α : Type} (l : List (String × α)) (k : String) (v : α)
    (h : alGet l k = some v) : (k, v) ∈ l := by
  induction l with
  | nil => simp [alGet] at h
  | cons q qs ih =>
    by_cases hq : q.1 = k
    · rw [alGet_cons_eq q qs k hq] at h
      have hv : q.2 = v := Option.some.inj h
      have : q = (k, v) := by
        rw [← hq, ← hv]
      exact this ▸ List.mem_cons_self _ _
    · rw [alGet_cons_ne q qs k hq] at h
      exact List.mem_cons_of_mem _ (ih h)

theorem dbWfb_unpack (db : DB) (h : db.wfb = true) :
    (db.tables.map (·.1)).Nodup ∧ (∀ p ∈ db.tables, p.2.wfb db.nextId = true) ∧
      db.allIds.Nodup := by
  unfold DB.wfb at h
  simp only [Bool.and_eq_true] at h
  exact ⟨(nodupStr_iff _).mp h.1.1, List.all_eq_true.mp h.1.2,
    (nodupVal_iff _).mp h.2⟩

theorem dbWfb_pack (db : DB) (h1 : (db.tables.map (·.1)).Nodup)
    (h2 : ∀ p ∈ db.tables, p.2.wfb db.nextId = true) (h3 : db.allIds.Nodup) :
    db.wfb = true := by
  unfold DB.wfb
  simp only [Bool.and_eq_true]
  exact ⟨⟨(nodupStr_iff _).mpr h1, List.all_eq_true.mpr h2⟩, (nodupVal_iff _).mpr h3⟩

theorem allIds_fresh (db : DB) (h : db.wfb = true) (v : Value) (hv : v ∈ db.allIds) :
    v ≠ some (freshId db.nextId) := by
  rcases mem_allIds db v hv with ⟨p, hp, r, hr, he⟩
  have hw := (dbWfb_unpack db h).2.1 p hp
  have hb := (tableWfb_unpack _ _ hw).2 r hr
  rw [idBound_iff] at hb
  rcases he ▸ hb with ⟨m, hm, heq⟩
  intro hc
  rw [heq] at hc
  have := freshId_inj m db.nextId (Option.some.inj hc)
  omega

theorem wfb_allIds_isSome (db : DB) (h : db.wfb = true) :
    ∀ v ∈ db.allIds, v.isSome = true := by
  intro v hv
  rcases mem_allIds db v hv with ⟨p, hp, r, hr, he⟩
  have hw := (dbWfb_unpack db h).2.1 p hp
  have hb := (tableWfb_unpack _ _ hw).2 r hr
  rw [idBound_iff] at hb
  rcases he ▸ hb with ⟨m, _, heq⟩
  rw [heq]
  rfl

end PDDB

namespace PDDB

theorem idsOfTables_append (l1 l2 : List (String × Table)) :
    idsOfTables (l1 ++ l2) = idsOfTables l1 ++ idsOfTables l2 := by
  unfold idsOfTables
  rw [List.flatMap_append]

theorem idsOfTables_cons (p : String × Table) (l : List (String × Table)) :
    idsOfTables (p :: l)
      = p.2.rows.map (fun r => rowGet p.2.schema r idCol) ++ idsOfTables l := by
  unfold idsOfTables
  rw [List.flatMap_cons]

/-! ### Claim C4 -/

/-- **C4.** Every `insert` overwrites any caller-supplied id (whether it came
in the record or in the row-generator output) with the freshly minted token
`freshId db.nextId`: the returned record and the stored row carry exactly
that id, the token differs from every id already stored anywhere in the
database, and the all-ids-non-null-and-globally-unique invariant (`DB.wfb`)
is preserved, so every record in every table keeps a non-null, unique id. -/
theorem insert_fresh_unique_id (db : DB) (tname : String) (record : RawRecord)
    (t : Table) (rec : List (String × String))
    (hwf : db.wfb = true)
    (ht : alGet db.tables (lowerStr tname) = some t)
    (hrec : checkRecord record = .ok rec)
    (hdyn : db.dynamicSchema = true)
    (hnodup : (rec.map (·.1)).Nodup)
    (hkrec : ∀ k ∈ rec.map (·.1), colnameOk k = true)
    (hbase : ∀ k ∈ ((alGet db.rowgens (lowerStr tname)).getD []).map (·.1),
      colnameOk k = true) :
    ∃ r db2 t3,
      insert db tname record [] = (.ok r, db2) ∧
      alGet r idCol = some (some (freshId db.nextId)) ∧
      alGet db2.tables (lowerStr tname) = some t3 ∧
      (∃ nr, getN t3.rows t.rows.length = some nr ∧
        rowGet t3.schema nr idCol = some (freshId db.nextId)) ∧
      (∀ v ∈ db.allIds, v ≠ some (freshId db.nextId)) ∧
      db2.wfb = true ∧
      (∀ v ∈ db2.allIds, v.isSome = true) ∧
      db2.allIds.Nodup := by
  rcases dbWfb_unpack db hwf with ⟨hnames, htabs, hidsnd⟩
  have htmem : ((lowerStr tname), t) ∈ db.tables := alGet_mem_pair _ _ _ ht
  have hwt : t.wfb db.nextId = true := htabs _ htmem
  rcases tableWfb_unpack _ _ hwt with ⟨hshape, hbounds⟩
  rcases shapeOk_unpack t hshape with ⟨hid, hnodupS, hok, haligned⟩
  rcases insertCore_char db (lowerStr tname) record t rec ht hrec hdyn hid hok
      hbase hkrec with ⟨δ, heq, hδ, hcov, hnd⟩
  have hkeysNew : ∀ k ∈ (insertResultRecord db (lowerStr tname) rec).map (·.1),
      colnameOk k = true := by
    intro k hk
    rcases (mem_keys_overlay _ _ k).mp hk with hb | hr
    · exact hbase k hb
    · rcases (mem_keys_alSet _ _ _ _).mp hr with hm | he
      · exact hkrec k hm
      · exact he ▸ colnameOk_idCol
  have hidval : alGet (insertResultRecord db (lowerStr tname) rec) idCol
      = some (some (freshId db.nextId)) := by
    unfold insertResultRecord
    rw [alGet_overlay_mem _ _ _ (nodup_keys_alSet _ _ _ hnodup)
      ((mem_keys_alSet _ _ _ _).mpr (Or.inr rfl)), alGet_alSet_self]
    rfl
  have hidschema2 : idCol ∈ t.schema ++ δ := List.mem_append_left _ hid
  have hnewrowid : rowGet (t.schema ++ δ)
      ((t.schema ++ δ).map (fun c =>
        (alGet (insertResultRecord db (lowerStr tname) rec) c).getD none)) idCol
      = some (freshId db.nextId) := by
    rw [rowGet_map_self, if_pos hidschema2, hidval]
    rfl
  have hids3 : (insertResultTable db (lowerStr tname) rec t δ).rows.map
        (fun r => rowGet (insertResultTable db (lowerStr tname) rec t δ).schema r idCol)
      = t.rows.map (fun r => rowGet t.schema r idCol) ++ [some (freshId db.nextId)] := by
    unfold insertResultTable
    simp only [List.map_append, List.map_map, List.map_cons, List.map_nil]
    congr 1
    · apply List.map_congr_left
      intro r hr
      simp only [Function.comp]
      exact rowGet_pad t.schema δ r idCol (haligned r hr)
    · rw [← List.map_append, hnewrowid]
  have hfresh : ∀ v ∈ db.allIds, v ≠ some (freshId db.nextId) :=
    fun v hv => allIds_fresh db hwf v hv
  -- decompose the table map around the updated entry
  rcases alSet_split db.tables (lowerStr tname) t
      (insertResultTable db (lowerStr tname) rec t δ) hnames ht
    with ⟨l1, l2, hsplit, hset, hn1, hn2⟩
  have hall_db : db.allIds = idsOfTables l1
      ++ t.rows.map (fun r => rowGet t.schema r idCol) ++ idsOfTables l2 := by
    show idsOfTables db.tables = _
    rw [hsplit, idsOfTables_append, idsOfTables_cons, List.append_assoc]
  have hall_db2 : (insertResultDB db (lowerStr tname) rec t δ).allIds
      = idsOfTables l1
        ++ (t.rows.map (fun r => rowGet t.schema r idCol)
            ++ [some (freshId db.nextId)])
        ++ idsOfTables l2 := by
    show idsOfTables (insertResultDB db (lowerStr tname) rec t δ).tables = _
    have : (insertResultDB db (lowerStr tname) rec t δ).tables
        = alSet db.tables (lowerStr tname)
            (insertResultTable db (lowerStr tname) rec t δ) := rfl
    rw [this, hset, idsOfTables_append, idsOfTables_cons, hids3]
    simp [List.append_assoc]
  have hperm : (insertResultDB db (lowerStr tname) rec t δ).allIds.Perm
      (some (freshId db.nextId) :: db.allIds) := by
    rw [hall_db2, hall_db]
    have hx : idsOfTables l1
          ++ (t.rows.map (fun r => rowGet t.schema r idCol)
              ++ [some (freshId db.nextId)]) ++ idsOfTables l2
        = (idsOfTables l1 ++ t.rows.map (fun r => rowGet t.schema r idCol))
            ++ some (freshId db.nextId) :: idsOfTables l2 := by
      simp [List.append_assoc]
    rw [hx]
    have h2 : List.Perm
        ((idsOfTables l1 ++ t.rows.map (fun r => rowGet t.schema r idCol))
          ++ some (freshId db.nextId) :: idsOfTables l2)
        (some (freshId db.nextId)
          :: ((idsOfTables l1 ++ t.rows.map (fun r => rowGet t.schema r idCol))
              ++ idsOfTables l2)) := List.perm_middle
    exact h2
  have hnd2 : (insertResultDB db (lowerStr tname) rec t δ).allIds.Nodup := by
    rw [hperm.nodup_iff, List.nodup_cons]
    exact ⟨fun hc => hfresh _ hc rfl, hidsnd⟩
  have hshape3 : (insertResultTable db (lowerStr tname) rec t δ).shapeOk = true := by
    unfold Table.shapeOk insertResultTable
    simp only [Bool.and_eq_true]
    refine ⟨⟨⟨List.elem_iff.mpr hidschema2, ?_⟩, ?_⟩, ?_⟩
    · rw [nodupStr_iff]
      rw [List.nodup_append]
      exact ⟨hnodupS, hnd, fun a ha hb => (hδ a hb).2 ha⟩
    · rw [List.all_eq_true]
      intro c hc
      rcases List.mem_append.mp hc with h1 | h2
      · exact hok c h1
      · exact hkeysNew c (hδ c h2).1
    · rw [List.all_eq_true]
      intro r hr
      rcases List.mem_append.mp hr with h1 | h2
      · rcases List.mem_map.mp h1 with ⟨r0, hr0, he⟩
        rw [← he]
        simp [haligned r0 hr0]
      · rw [List.mem_singleton.mp h2]
        simp
  have hwfb3 : (insertResultTable db (lowerStr tname) rec t δ).wfb (db.nextId + 1)
      = true := by
    apply tableWfb_pack _ _ hshape3
    intro r hr
    have : (insertResultTable db (lowerStr tname) rec t δ).rows = _ := rfl
    unfold insertResultTable at hr
    rcases List.mem_append.mp hr with h1 | h2
    · rcases List.mem_map.mp h1 with ⟨r0, hr0, he⟩
      show idBound (db.nextId + 1)
        (rowGet (insertResultTable db (lowerStr tname) rec t δ).schema r idCol) = true
      have hsch : (insertResultTable db (lowerStr tname) rec t δ).schema
          = t.schema ++ δ := rfl
      rw [hsch, ← he, rowGet_pad t.schema δ r0 idCol (haligned r0 hr0)]
      exact idBound_mono db.nextId (db.nextId + 1) _ (Nat.le_succ _) (hbounds r0 hr0)
    · rw [List.mem_singleton.mp h2]
      show idBound (db.nextId + 1) (rowGet (t.schema ++ δ) _ idCol) = true
      rw [hnewrowid]
      rw [idBound_iff]
      exact ⟨db.nextId, Nat.lt_succ_self _, rfl⟩
  have hwfb2 : (insertResultDB db (lowerStr tname) rec t δ).wfb = true := by
    apply dbWfb_pack
    · show ((alSet db.tables (lowerStr tname) _).map (·.1)).Nodup
      rw [keys_alSet_of_mem _ _ _ ((alGet_isSome_iff _ _).mp (by rw [ht]; rfl))]
      exact hnames
    · intro p hp
      rcases mem_alSet _ _ _ p hp with hpe | hpm
      · rw [hpe]
        exact hwfb3
      · exact tableWfb_mono db.nextId (db.nextId + 1) _ (Nat.le_succ _) (htabs p hpm)
    · exact hnd2
  refine ⟨insertResultRecord db (lowerStr tname) rec,
    insertResultDB db (lowerStr tname) rec t δ,
    insertResultTable db (lowerStr tname) rec t δ,
    ?_, hidval, ?_, ?_, hfresh, hwfb2, wfb_allIds_isSome _ hwfb2, hnd2⟩
  · show insertCore db (lowerStr tname) record [] = _
    rw [heq]
  · unfold insertResultDB
    exact alGet_alSet_self _ _ _
  · refine ⟨(t.schema ++ δ).map (fun c =>
      (alGet (insertResultRecord db (lowerStr tname) rec) c).getD none), ?_, hnewrowid⟩
    show getN ((t.rows.map (fun r => r ++ List.replicate δ.length none)) ++ [_])
      t.rows.length = _
    have hlen : t.rows.length
        = (t.rows.map (fun r => r ++ List.replicate δ.length none)).length := by
      simp
    rw [hlen, getN_append_len]

end PDDB

namespace PDDB

theorem insert_fresh_unique_id_witness :
    ∃ r db2 t3,
      insert (⟨[("t", ⟨["__id__", "a"], [[some "u", some "1"]]⟩)],
          [("t", [("__id__", some "zzz"), ("x", some "9")])], 1, true⟩ : DB) "t"
        [("__id__", CondVal.str "fake"), ("a", CondVal.str "2")] [] = (.ok r, db2) ∧
      alGet r idCol = some (some (freshId 1)) ∧
      alGet db2.tables (lowerStr "t") = some t3 ∧
      (∃ nr, getN t3.rows 1 = some nr ∧
        rowGet t3.schema nr idCol = some (freshId 1)) ∧
      (∀ v ∈ (⟨[("t", ⟨["__id__", "a"], [[some "u", some "1"]]⟩)],
          [("t", [("__id__", some "zzz"), ("x", some "9")])], 1, true⟩ : DB).allIds,
        v ≠ some (freshId 1)) ∧
      db2.wfb = true ∧
      (∀ v ∈ db2.allIds, v.isSome = true) ∧
      db2.allIds.Nodup := by
  have h := insert_fresh_unique_id
    (⟨[("t", ⟨["__id__", "a"], [[some "u", some "1"]]⟩)],
      [("t", [("__id__", some "zzz"), ("x", some "9")])], 1, true⟩ : DB) "t"
    [("__id__", CondVal.str "fake"), ("a", CondVal.str "2")]
    ⟨["__id__", "a"], [[some "u", some "1"]]⟩ [("__id__", "fake"), ("a", "2")]
    (by decide) (by decide) (by decide) rfl (by decide) (by decide) (by decide)
  simpa using h

end PDDB

namespace PDDB

/-! ### Claim C9 -/

/-- **C9 (counterexample).** The claim says column identifiers are folded to
lowercase at every entry point before storage.  They are not: inserting a
record with key `"Name"` stores the column `"Name"` verbatim in the schema —
`"name"` is nowhere added (the code's own docstring shows exactly this). -/
theorem column_identifiers_not_folded_counterexample :
    ((insert (⟨[("test", ⟨["__id__"], []⟩)], [], 0, true⟩ : DB) "test"
        [("Name", CondVal.str "John")] []).2.tables
      = [("test", ⟨["__id__", "Name"], [[some "u", some "John"]]⟩)]) ∧
    (∀ p ∈ (insert (⟨[("test", ⟨["__id__"], []⟩)], [], 0, true⟩ : DB) "test"
        [("Name", CondVal.str "John")] []).2.tables,
      "name" ∉ p.2.schema ∧ "Name" ∈ p.2.schema) := by
  decide

/-- **C9 (amended).** Table identifiers are case-normalized to lowercase at
every public entry point (`find`, `insert`, `delete`, `upsert`): two spellings
with the same lowercase form are interchangeable.  Column identifiers are NOT
case-folded: a record key is carried verbatim into the stored record and the
evolved schema. -/
theorem table_names_folded_column_names_verbatim :
    (∀ (rm : String → String → Bool) (db : DB) (t1 t2 : String)
        (record : RawRecord) (w wn : Cond) (columns : List String),
      lowerStr t1 = lowerStr t2 →
      find rm db t1 w wn columns = find rm db t2 w wn columns ∧
      insert db t1 record columns = insert db t2 record columns ∧
      delete rm db t1 w wn = delete rm db t2 w wn ∧
      upsert rm db t1 record w wn columns = upsert rm db t2 record w wn columns) ∧
    (∀ (db : DB) (tname : String) (record : RawRecord) (t : Table)
        (rec : List (String × String)) (k : String),
      alGet db.tables (lowerStr tname) = some t →
      checkRecord record = .ok rec →
      db.dynamicSchema = true →
      t.shapeOk = true →
      (∀ c ∈ ((alGet db.rowgens (lowerStr tname)).getD []).map (·.1),
        colnameOk c = true) →
      (∀ c ∈ rec.map (·.1), colnameOk c = true) →
      k ∈ rec.map (·.1) →
      ∃ r db2 t3, insert db tname record [] = (.ok r, db2) ∧
        alGet db2.tables (lowerStr tname) = some t3 ∧
        k ∈ r.map (·.1) ∧ k ∈ t3.schema) := by
  constructor
  · intro rm db t1 t2 record w wn columns h
    unfold find insert delete upsert
    rw [h]
    exact ⟨rfl, rfl, rfl, rfl⟩
  · intro db tname record t rec k ht hrec hdyn hshape hbase hkrec hk
    rcases shapeOk_unpack t hshape with ⟨hid, _, hok, _⟩
    rcases insertCore_char db (lowerStr tname) record t rec ht hrec hdyn hid hok
        hbase hkrec with ⟨δ, heq, hδ, hcov, hnd⟩
    have hkmem : k ∈ (insertResultRecord db (lowerStr tname) rec).map (·.1) := by
      unfold insertResultRecord
      rw [mem_keys_overlay]
      exact Or.inr ((mem_keys_alSet _ _ _ _).mpr (Or.inl hk))
    refine ⟨insertResultRecord db (lowerStr tname) rec,
      insertResultDB db (lowerStr tname) rec t δ,
      insertResultTable db (lowerStr tname) rec t δ, ?_, ?_, hkmem, hcov k hkmem⟩
    · show insertCore db (lowerStr tname) record [] = _
      rw [heq]
    · unfold insertResultDB
      exact alGet_alSet_self _ _ _

theorem table_names_folded_column_names_verbatim_witness :
    (find (fun _ _ => false) (⟨[("test", ⟨["__id__"], []⟩)], [], 0, true⟩ : DB)
        "TeSt" [] [] []
      = find (fun _ _ => false) (⟨[("test", ⟨["__id__"], []⟩)], [], 0, true⟩ : DB)
        "test" [] [] []) ∧
    (∃ r db2 t3,
      insert (⟨[("test", ⟨["__id__"], []⟩)], [], 0, true⟩ : DB) "test"
        [("Name", CondVal.str "John")] [] = (.ok r, db2) ∧
      alGet db2.tables (lowerStr "test") = some t3 ∧
      "Name" ∈ r.map (·.1) ∧ "Name" ∈ t3.schema) := by
  constructor
  · exact (table_names_folded_column_names_verbatim.1 (fun _ _ => false)
      (⟨[("test", ⟨["__id__"], []⟩)], [], 0, true⟩ : DB) "TeSt" "test" [] [] [] []
      (by decide)).1
  · exact table_names_folded_column_names_verbatim.2
      (⟨[("test", ⟨["__id__"], []⟩)], [], 0, true⟩ : DB) "test"
      [("Name", CondVal.str "John")] ⟨["__id__"], []⟩ [("Name", "John")] "Name"
      (by decide) (by decide) rfl (by decide) (by decide) (by decide) (by decide)

end PDDB

namespace PDDB

/-! ### Update-in-place lemmas -/

theorem setCol_schema (t : Table) (ixs : List Nat) (k : String) (v : Value) :
    (setCol t ixs k v).schema = t.schema := rfl

theorem setCol_rows_getN (t : Table) (ixs : List Nat) (k : String) (v : Value)
    (i : Nat) :
    getN (setCol t ixs k v).rows i
      = (getN t.rows i).map
          (fun r => if ixs.contains i then setVal t.schema r k v else r) := by
  show getN ((withIdxFrom 0 t.rows).map _) i = _
  rw [getN_map, getN_withIdxFrom]
  cases getN t.rows i with
  | none => rfl
  | some r => simp

theorem setCol_rows_length (t : Table) (ixs : List Nat) (k : String) (v : Value) :
    (setCol t ixs k v).rows.length = t.rows.length := by
  show ((withIdxFrom 0 t.rows).map _).length = _
  rw [List.length_map, withIdxFrom_length]

theorem foldl_setCol_schema (rec : List (String × String)) (t : Table)
    (ixs : List Nat) :
    (rec.foldl (fun tt q => setCol tt ixs q.1 (some q.2)) t).schema = t.schema := by
  induction rec generalizing t with
  | nil => rfl
  | cons q rest ih => exact ih (setCol t ixs q.1 (some q.2))

theorem foldl_setCol_rows_length (rec : List (String × String)) (t : Table)
    (ixs : List Nat) :
    (rec.foldl (fun tt q => setCol tt ixs q.1 (some q.2)) t).rows.length
      = t.rows.length := by
  induction rec generalizing t with
  | nil => rfl
  | cons q rest ih =>
    rw [List.foldl_cons, ih (setCol t ixs q.1 (some q.2)),
      setCol_rows_length]

theorem foldl_setCol_rows_getN (rec : List (String × String)) (t : Table)
    (ixs : List Nat) (i : Nat) :
    getN (rec.foldl (fun tt q => setCol tt ixs q.1 (some q.2)) t).rows i
      = (getN t.rows i).map
          (fun r => if ixs.contains i then
              rec.foldl (fun rr q => setVal t.schema rr q.1 (some q.2)) r
            else r) := by
  induction rec generalizing t with
  | nil =>
    cases h : getN t.rows i <;> simp [h]
  | cons q rest ih =>
    rw [List.foldl_cons, ih (setCol t ixs q.1 (some q.2)), setCol_rows_getN]
    rw [Option.map_map]
    cases h : getN t.rows i with
    | none => rfl
    | some r =>
      simp only [Option.map_some, Function.comp, setCol_schema]
      by_cases hc : i ∈ ixs <;> simp [hc]

theorem foldl_setVal_length (rec : List (String × String)) (s : List String)
    (r : Row) :
    (rec.foldl (fun rr q => setVal s rr q.1 (some q.2)) r).length = r.length := by
  induction rec generalizing r with
  | nil => rfl
  | cons q rest ih =>
    rw [List.foldl_cons, ih (setVal s r q.1 (some q.2)), setVal_length]

theorem rowGet_foldl_setVal_not_mem (rec : List (String × String))
    (s : List String) (r : Row) (k : String) (h : k ∉ rec.map (·.1)) :
    rowGet s (rec.foldl (fun rr q => setVal s rr q.1 (some q.2)) r) k
      = rowGet s r k := by
  induction rec generalizing r with
  | nil => rfl
  | cons q rest ih =>
    have hne : k ≠ q.1 := by
      intro hc
      exact h (hc ▸ List.mem_cons_self _ _)
    have h' : k ∉ rest.map (·.1) := fun hc => h (List.mem_cons_of_mem _ hc)
    rw [List.foldl_cons, ih (setVal s r q.1 (some q.2)) h',
      rowGet_setVal_ne s r q.1 k (some q.2) hne]

theorem rowGet_foldl_setVal_mem (rec : List (String × String)) (s : List String)
    (r : Row) (k : String) (v : String)
    (hnd : (rec.map (·.1)).Nodup) (hget : alGet rec k = some v)
    (hks : ∀ q ∈ rec, q.1 ∈ s) (hl : r.length = s.length) :
    rowGet s (rec.foldl (fun rr q => setVal s rr q.1 (some q.2)) r) k = some v := by
  induction rec generalizing r with
  | nil => simp [alGet] at hget
  | cons q rest ih =>
    simp only [List.map_cons, List.nodup_cons] at hnd
    by_cases hk : q.1 = k
    · rw [alGet_cons_eq q rest k hk] at hget
      have hv : q.2 = v := Option.some.inj hget
      rw [List.foldl_cons,
        rowGet_foldl_setVal_not_mem rest s _ k (hk ▸ hnd.1), ← hk,
        rowGet_setVal_self s r q.1 (some q.2) hl
          (hks q (List.mem_cons_self _ _)), hv]
    · rw [alGet_cons_ne q rest k hk] at hget
      rw [List.foldl_cons]
      exact ih (setVal s r q.1 (some q.2)) hnd.2 hget
        (fun p hp => hks p (List.mem_cons_of_mem _ hp))
        (by rw [setVal_length]; exact hl)

end PDDB

namespace PDDB

/-- Rows reported by `find` without projection are rows of the table, tagged
with their positional index. -/
theorem findCore_rows_mem (rm : String → String → Bool) (db : DB) (tn : String)
    (w wn : Cond) (res : FindRes) (t : Table)
    (ht : alGet db.tables tn = some t)
    (h : findCore rm db tn w wn [] = .ok res) :
    ∀ p ∈ res.rows, getN t.rows p.1 = some p.2 := by
  unfold findCore at h
  rw [ht] at h
  cases hw : checkConditions w with
  | some e => rw [hw] at h; simp at h
  | none =>
  rw [hw] at h
  cases hwn : checkConditions wn with
  | some e => rw [hwn] at h; simp at h
  | none =>
  rw [hwn] at h
  simp only [List.isEmpty_nil, Bool.not_true, Bool.false_and,
    Bool.false_eq_true, if_false] at h
  cases hm : (if !w.isEmpty then condMask rm t.schema t.rows w
              else .ok (t.rows.map (fun _ => true))) with
  | error e => rw [hm] at h; simp at h
  | ok mask =>
  rw [hm] at h
  simp only [] at h
  cases hm2 : (if !wn.isEmpty then
        condMask rm t.schema ((applyMask (withIdxFrom 0 t.rows) mask).map (·.2)) wn
      else .ok ((applyMask (withIdxFrom 0 t.rows) mask).map (fun _ => false))) with
  | error e => rw [hm2] at h; simp at h
  | ok mask2 =>
  rw [hm2] at h
  simp only [Except.ok.injEq] at h
  intro p hp
  rw [← h] at hp
  have h1 := mem_applyMask _ _ _ hp
  have h2 := mem_withIdxFrom 0 t.rows p (mem_applyMask _ _ _ h1)
  simpa using h2.2.2

end PDDB

namespace PDDB

/-- **C8**: upsert with a predicate matching one or more rows updates, on every
matched row, exactly the fields named in the (checked) record, leaves every
other field of matched rows — including the id — unchanged, leaves all
non-matched rows unchanged, and preserves the table's row count.  The returned
value reports the updated rows. -/
theorem upsert_update_frame (rm : String → String → Bool) (db : DB)
    (tname : String) (record : RawRecord) (w wn : Cond)
    (rec : List (String × String)) (t : Table) (res : FindRes)
    (ht : alGet db.tables (lowerStr tname) = some t)
    (hdyn : db.dynamicSchema = true)
    (hshape : t.shapeOk = true)
    (hrec : checkRecord record = .ok rec)
    (hnd : (rec.map (·.1)).Nodup)
    (hkrec : ∀ k ∈ rec.map (·.1), colnameOk k = true)
    (hw : checkConditions w = none)
    (hwn : checkConditions wn = none)
    (hnw : checkConditionsNorm w = none)
    (hnwn : checkConditionsNorm wn = none)
    (hwne : w ≠ [])
    (hfind : findCore rm db (lowerStr tname) w wn [] = .ok res)
    (hne : res.rows ≠ []) :
    ∃ t3 : Table,
      upsert rm db tname record w wn []
        = (.ok (UpsertOut.updated t3.schema
            ((res.rows.map (·.1)).map (fun i => (getN t3.rows i).getD []))),
           { db with tables := alSet db.tables (lowerStr tname) t3 }) ∧
      t3.rows.length = t.rows.length ∧
      (∀ i, i ∈ res.rows.map (·.1) →
        (∀ k v, alGet rec k = some v →
          rowGet t3.schema ((getN t3.rows i).getD []) k = some v) ∧
        (∀ k, k ∉ rec.map (·.1) →
          rowGet t3.schema ((getN t3.rows i).getD []) k
            = rowGet t.schema ((getN t.rows i).getD []) k)) ∧
      (∀ i, i ∉ res.rows.map (·.1) → ∀ k,
        rowGet t3.schema ((getN t3.rows i).getD []) k
          = rowGet t.schema ((getN t.rows i).getD []) k) := by
  obtain ⟨hid, hnds, hok, hlen⟩ := shapeOk_unpack t hshape
  obtain ⟨δ, hup, hδ, hcov, hδnd⟩ :=
    updateSchema_dyn_char (rec.map (·.1)) t hid hok hkrec
  refine ⟨rec.foldl
      (fun tt q => setCol tt (res.rows.map (·.1)) q.1 (some q.2))
      ⟨t.schema ++ δ, t.rows.map (fun r => r ++ List.replicate δ.length none)⟩,
      ?_, ?_, ?_, ?_⟩
  · -- the computation itself
    have hwe : w.isEmpty = false := by
      cases w with
      | nil => exact absurd rfl hwne
      | cons a l => rfl
    have hre : res.rows.isEmpty = false := by
      cases hr : res.rows with
      | nil => exact absurd hr hne
      | cons a l => rfl
    have e1 : checkTnameCore db (lowerStr tname) = (db, none) := by
      unfold checkTnameCore
      rw [ht]
    have hfindN : findNormCore rm db (lowerStr tname) w wn [] = .ok res := by
      unfold findNormCore
      rw [ht]
      simp only []
      rw [hnw]
      simp only []
      rw [hnwn]
      simp only []
      exact hfind
    unfold upsert upsertCore
    rw [e1]
    simp only [] 
    rw [hw]
    simp only []
    rw [hwn]
    simp only []
    rw [hrec]
    simp only []
    rw [hwe]
    simp only [Bool.false_and, Bool.false_eq_true, if_false]
    rw [hfindN]
    simp only []
    rw [hre]
    simp only [Bool.false_eq_true, if_false]
    rw [ht]
    simp only []
    rw [hdyn, hup]
    simp only [List.isEmpty_nil, if_true]
  · -- row count preserved
    rw [foldl_setCol_rows_length]
    exact List.length_map _ _
  · -- matched rows
    intro i hi
    obtain ⟨p, hp, hpi⟩ := List.mem_map.mp hi
    have hrow := findCore_rows_mem rm db (lowerStr tname) w wn res t ht hfind p hp
    have hcont : (res.rows.map (·.1)).contains p.1 = true :=
      List.elem_iff.mpr (List.mem_map.mpr ⟨p, hp, rfl⟩)
    have hg2 : getN (t.rows.map (fun r => r ++ List.replicate δ.length none)) p.1
        = some (p.2 ++ List.replicate δ.length none) := by
      rw [getN_map, hrow]
      rfl
    have hg3 : getN (rec.foldl
          (fun tt q => setCol tt (res.rows.map (·.1)) q.1 (some q.2))
          ⟨t.schema ++ δ, t.rows.map (fun r => r ++ List.replicate δ.length none)⟩).rows
          p.1
        = some (rec.foldl (fun rr q => setVal (t.schema ++ δ) rr q.1 (some q.2))
            (p.2 ++ List.replicate δ.length none)) := by
      rw [foldl_setCol_rows_getN]
      show Option.map _ (getN (t.rows.map (fun r => r ++ List.replicate δ.length none)) p.1) = _
      rw [hg2, Option.map_some', if_pos hcont]
    have hl2 : (p.2 ++ List.replicate δ.length none).length = (t.schema ++ δ).length := by
      rw [List.length_append, List.length_append, List.length_replicate,
        hlen p.2 (getN_mem t.rows p.1 p.2 hrow)]
    have hsch : (rec.foldl
        (fun tt q => setCol tt (res.rows.map (·.1)) q.1 (some q.2))
        ⟨t.schema ++ δ, t.rows.map (fun r => r ++ List.replicate δ.length none)⟩).schema
        = t.schema ++ δ :=
      foldl_setCol_schema rec _ _
    rw [← hpi]
    constructor
    · intro k v hkv
      rw [hg3, hsch]
      simp only [Option.getD_some]
      exact rowGet_foldl_setVal_mem rec (t.schema ++ δ) _ k v hnd hkv
        (fun q hq => hcov q.1 (List.mem_map.mpr ⟨q, hq, rfl⟩)) hl2
    · intro k hk
      rw [hg3, hsch, hrow]
      simp only [Option.getD_some]
      rw [rowGet_foldl_setVal_not_mem rec (t.schema ++ δ) _ k hk]
      exact rowGet_pad t.schema δ p.2 k (hlen p.2 (getN_mem t.rows p.1 p.2 hrow))
  · -- non-matched rows
    intro i hi k
    have hcont : (res.rows.map (·.1)).contains i = false := by
      cases hc : (res.rows.map (·.1)).contains i with
      | false => rfl
      | true => exact absurd (List.elem_iff.mp hc) hi
    have hsch : (rec.foldl
        (fun tt q => setCol tt (res.rows.map (·.1)) q.1 (some q.2))
        ⟨t.schema ++ δ, t.rows.map (fun r => r ++ List.replicate δ.length none)⟩).schema
        = t.schema ++ δ :=
      foldl_setCol_schema rec _ _
    cases hrow : getN t.rows i with
    | none =>
      have hg2 : getN (t.rows.map (fun r => r ++ List.replicate δ.length none)) i
          = none := by
        rw [getN_map, hrow]
        rfl
      have hg3 : getN (rec.foldl
            (fun tt q => setCol tt (res.rows.map (·.1)) q.1 (some q.2))
            ⟨t.schema ++ δ, t.rows.map (fun r => r ++ List.replicate δ.length none)⟩).rows
            i = none := by
        rw [foldl_setCol_rows_getN]
        show Option.map _ (getN (t.rows.map (fun r => r ++ List.replicate δ.length none)) i) = _
        rw [hg2]
        rfl
      rw [hg3]
      simp only [Option.getD_none]
      rw [rowGet_nil_row, rowGet_nil_row]
    | some r0 =>
      have hg2 : getN (t.rows.map (fun r => r ++ List.replicate δ.length none)) i
          = some (r0 ++ List.replicate δ.length none) := by
        rw [getN_map, hrow]
        rfl
      have hg3 : getN (rec.foldl
            (fun tt q => setCol tt (res.rows.map (·.1)) q.1 (some q.2))
            ⟨t.schema ++ δ, t.rows.map (fun r => r ++ List.replicate δ.length none)⟩).rows
            i = some (r0 ++ List.replicate δ.length none) := by
        rw [foldl_setCol_rows_getN]
        show Option.map _ (getN (t.rows.map (fun r => r ++ List.replicate δ.length none)) i) = _
        rw [hg2, Option.map_some', if_neg]
        intro hc
        rw [hc] at hcont
        simp at hcont
      rw [hg3, hsch]
      simp only [Option.getD_some]
      exact rowGet_pad t.schema δ r0 k (hlen r0 (getN_mem t.rows i r0 hrow))

end PDDB

namespace PDDB

theorem upsert_update_frame_witness :
    ∃ t3 : Table,
      upsert (fun _ _ => false)
          (⟨[("t", ⟨["__id__", "a", "b"],
              [[some "i1", some "x", some "p"], [some "i2", some "y", some "q"]]⟩)],
            [], 0, true⟩ : DB) "T" [("b", CondVal.str "z")]
          [("a", [CondVal.str "x"])] [] []
        = (.ok (UpsertOut.updated t3.schema
            ((([((0 : Nat), [some "i1", some "x", some "p"])] :
                List (Nat × Row)).map (·.1)).map
              (fun i => (getN t3.rows i).getD []))),
           { (⟨[("t", ⟨["__id__", "a", "b"],
                [[some "i1", some "x", some "p"], [some "i2", some "y", some "q"]]⟩)],
              [], 0, true⟩ : DB) with
             tables := alSet (⟨[("t", ⟨["__id__", "a", "b"],
                [[some "i1", some "x", some "p"],
                 [some "i2", some "y", some "q"]]⟩)],
              [], 0, true⟩ : DB).tables (lowerStr "T") t3 }) ∧
      t3.rows.length = (⟨["__id__", "a", "b"],
          [[some "i1", some "x", some "p"],
           [some "i2", some "y", some "q"]]⟩ : Table).rows.length ∧
      (∀ i, i ∈ ([((0 : Nat), [some "i1", some "x", some "p"])] :
            List (Nat × Row)).map (·.1) →
        (∀ k v, alGet [("b", "z")] k = some v →
          rowGet t3.schema ((getN t3.rows i).getD []) k = some v) ∧
        (∀ k, k ∉ ([("b", "z")] : List (String × String)).map (·.1) →
          rowGet t3.schema ((getN t3.rows i).getD []) k
            = rowGet (⟨["__id__", "a", "b"],
                [[some "i1", some "x", some "p"],
                 [some "i2", some "y", some "q"]]⟩ : Table).schema
              ((getN (⟨["__id__", "a", "b"],
                [[some "i1", some "x", some "p"],
                 [some "i2", some "y", some "q"]]⟩ : Table).rows i).getD []) k)) ∧
      (∀ i, i ∉ ([((0 : Nat), [some "i1", some "x", some "p"])] :
            List (Nat × Row)).map (·.1) → ∀ k,
        rowGet t3.schema ((getN t3.rows i).getD []) k
          = rowGet (⟨["__id__", "a", "b"],
              [[some "i1", some "x", some "p"],
               [some "i2", some "y", some "q"]]⟩ : Table).schema
            ((getN (⟨["__id__", "a", "b"],
              [[some "i1", some "x", some "p"],
               [some "i2", some "y", some "q"]]⟩ : Table).rows i).getD []) k) :=
  upsert_update_frame (fun _ _ => false)
    (⟨[("t", ⟨["__id__", "a", "b"],
        [[some "i1", some "x", some "p"], [some "i2", some "y", some "q"]]⟩)],
      [], 0, true⟩ : DB) "T" [("b", CondVal.str "z")]
    [("a", [CondVal.str "x"])] [] [("b", "z")]
    ⟨["__id__", "a", "b"],
      [[some "i1", some "x", some "p"], [some "i2", some "y", some "q"]]⟩
    ⟨["__id__", "a", "b"], [((0 : Nat), [some "i1", some "x", some "p"])]⟩
    (by decide) (by decide) (by decide) (by decide) (by decide) (by decide)
    (by decide) (by decide) (by decide) (by decide) (by decide) (by decide)
    (by decide)

end PDDB

namespace PDDB

/-! ### Lemmas for the zero-match upsert branch -/

theorem alSet_alSet {α : Type} (l : List (String × α)) (k : String) (v v' : α) :
    alSet (alSet l k v) k v' = alSet l k v' := by
  induction l with
  | nil => simp [alSet]
  | cons p ps ih =>
    by_cases hp : p.1 = k
    · rw [alSet_cons_eq p ps k v hp, alSet_cons_eq _ ps k v' rfl,
        alSet_cons_eq p ps k v' hp]
    · rw [alSet_cons_ne p ps k v hp, alSet_cons_ne p _ k v' hp,
        alSet_cons_ne p ps k v' hp, ih]

theorem alSet_map_str (rec : List (String × String)) (k s : String) :
    alSet (rec.map (fun q => (q.1, CondVal.str q.2))) k (CondVal.str s)
      = (alSet rec k s).map (fun q => (q.1, CondVal.str q.2)) := by
  induction rec with
  | nil => rfl
  | cons q rest ih =>
    by_cases hq : q.1 = k
    · rw [List.map_cons, alSet_cons_eq _ _ k (CondVal.str s) hq,
        alSet_cons_eq q rest k s hq]
      rfl
    · rw [List.map_cons, alSet_cons_ne _ _ k (CondVal.str s) hq,
        alSet_cons_ne q rest k s hq, List.map_cons, ih]

theorem synthWhere_eq_map (rec : List (String × String)) (w : Cond)
    (hwstr : ∀ p ∈ w, ∃ s, p.2.headD CondVal.null = CondVal.str s) :
    synthWhere rec w = (synthRec rec w).map (fun q => (q.1, CondVal.str q.2)) := by
  induction w generalizing rec with
  | nil => rfl
  | cons p rest ih =>
    obtain ⟨s, hs⟩ := hwstr p (List.mem_cons_self _ _)
    unfold synthWhere synthRec
    rw [List.foldl_cons, List.foldl_cons, hs, alSet_map_str]
    exact ih (alSet rec p.1 s) (fun q hq => hwstr q (List.mem_cons_of_mem _ hq))

theorem checkRecord_synthWhere (rec : List (String × String)) (w : Cond)
    (hwstr : ∀ p ∈ w, ∃ s, p.2.headD CondVal.null = CondVal.str s) :
    checkRecord (synthWhere rec w) = .ok (synthRec rec w) := by
  rw [synthWhere_eq_map rec w hwstr, checkRecord_map_str]

theorem nodup_keys_synthRec (rec : List (String × String)) (w : Cond)
    (h : (rec.map (·.1)).Nodup) : ((synthRec rec w).map (·.1)).Nodup := by
  induction w generalizing rec with
  | nil => exact h
  | cons p rest ih =>
    unfold synthRec
    rw [List.foldl_cons]
    exact ih _ (nodup_keys_alSet rec p.1 _ h)

theorem synthRec_not_mem (rec : List (String × String)) (w : Cond) (k : String)
    (h : k ∉ w.map (·.1)) : alGet (synthRec rec w) k = alGet rec k := by
  induction w generalizing rec with
  | nil => rfl
  | cons p rest ih =>
    have hne : k ≠ p.1 := by
      intro hc
      exact h (hc ▸ List.mem_cons_self _ _)
    have h' : k ∉ rest.map (·.1) := fun hc => h (List.mem_cons_of_mem _ hc)
    unfold synthRec
    rw [List.foldl_cons]
    exact (ih _ h').trans (alGet_alSet_ne rec p.1 k _ hne)

theorem synthRec_mem (rec : List (String × String)) (w : Cond) (k : String)
    (hwnd : (w.map (·.1)).Nodup)
    (hwstr : ∀ p ∈ w, ∃ s, p.2.headD CondVal.null = CondVal.str s)
    (h : k ∈ w.map (·.1)) : alGet (synthRec rec w) k = condFirst w k := by
  induction w generalizing rec with
  | nil => simp at h
  | cons p rest ih =>
    simp only [List.map_cons, List.nodup_cons] at hwnd
    by_cases hk : p.1 = k
    · obtain ⟨s, hs⟩ := hwstr p (List.mem_cons_self _ _)
      subst hk
      unfold synthRec
      rw [List.foldl_cons]
      refine (synthRec_not_mem _ rest p.1 hwnd.1).trans ?_
      rw [alGet_alSet_self]
      unfold condFirst
      rw [alGet_cons_eq p rest p.1 rfl]
      simp only []
      rw [hs]
    · have h' : k ∈ rest.map (·.1) := by
        rcases List.mem_cons.mp h with he | hm
        · exact absurd he.symm hk
        · exact hm
      unfold synthRec
      rw [List.foldl_cons]
      refine (ih _ hwnd.2
        (fun q hq => hwstr q (List.mem_cons_of_mem _ hq)) h').trans ?_
      unfold condFirst
      rw [alGet_cons_ne p rest k hk]

end PDDB

namespace PDDB

/-- The retraction step of the zero-match conflict branch: deleting by the
freshly minted id removes exactly the appended row and no other. -/
theorem deleteCore_retract (rm : String → String → Bool) (db : DB) (tn : String)
    (rs : List (String × String)) (t : Table) (δ : List String)
    (hid : idCol ∈ t.schema)
    (hlen : ∀ r ∈ t.rows, r.length = t.schema.length)
    (halid : alGet (insertResultRecord db tn rs) idCol
      = some (some (freshId db.nextId)))
    (hfresh : ∀ r ∈ t.rows,
      rowGet t.schema r idCol ≠ some (freshId db.nextId)) :
    deleteCore rm (insertResultDB db tn rs t δ) tn
        [(idCol, [CondVal.str (freshId db.nextId)])] []
      = (.ok [(t.rows.length,
            (t.schema ++ δ).map
              (fun c => (alGet (insertResultRecord db tn rs) c).getD none))],
         { db with
           nextId := db.nextId + 1,
           tables := alSet db.tables tn
             ⟨t.schema ++ δ,
              t.rows.map (fun r => r ++ List.replicate δ.length none)⟩ }) := by
  have ht3 : alGet (insertResultDB db tn rs t δ).tables tn
      = some (insertResultTable db tn rs t δ) := by
    show alGet (alSet db.tables tn _) tn = _
    rw [alGet_alSet_self]
  have e1 : checkTnameCore (insertResultDB db tn rs t δ) tn
      = (insertResultDB db tn rs t δ, none) := by
    unfold checkTnameCore
    rw [ht3]
  have hcw : checkConditions [(idCol, [CondVal.str (freshId db.nextId)])] = none := by
    rfl
  have hcontid : (t.schema ++ δ).contains idCol = true :=
    List.elem_iff.mpr (List.mem_append_left δ hid)
  have hmask : condMask rm (t.schema ++ δ)
      ((t.rows.map (fun r => r ++ List.replicate δ.length none))
        ++ [(t.schema ++ δ).map
              (fun c => (alGet (insertResultRecord db tn rs) c).getD none)])
      [(idCol, [CondVal.str (freshId db.nextId)])]
      = .ok (t.rows.map (fun _ => false) ++ [true]) := by
    rw [condMask_single rm _ _ idCol _ hcontid]
    rw [List.map_append, List.map_map]
    congr 1
    congr 1
    · refine List.map_congr_left ?_
      intro r hr
      show singleMatch rm (CondVal.str (freshId db.nextId))
        (rowGet (t.schema ++ δ) (r ++ List.replicate δ.length none) idCol) = false
      rw [rowGet_pad t.schema δ r idCol (hlen r hr)]
      show (rowGet t.schema r idCol == some (freshId db.nextId)) = false
      exact beq_eq_false_iff_ne.mpr (hfresh r hr)
    · show [singleMatch rm (CondVal.str (freshId db.nextId))
        (rowGet (t.schema ++ δ)
          ((t.schema ++ δ).map
            (fun c => (alGet (insertResultRecord db tn rs) c).getD none)) idCol)] = [true]
      rw [rowGet_map_self, if_pos (List.mem_append_left δ hid), halid]
      show [(some (freshId db.nextId) == some (freshId db.nextId))] = [true]
      rw [beq_self_eq_true]
  have hsel : applyMask
      (withIdxFrom 0
        ((t.rows.map (fun r => r ++ List.replicate δ.length none))
          ++ [(t.schema ++ δ).map
                (fun c => (alGet (insertResultRecord db tn rs) c).getD none)]))
      (t.rows.map (fun _ => false) ++ [true])
      = [(t.rows.length,
          (t.schema ++ δ).map
            (fun c => (alGet (insertResultRecord db tn rs) c).getD none))] := by
    rw [withIdxFrom_append, applyMask_append]
    · rw [applyMask_all_false _ _ (fun b hb => by
        rcases List.mem_map.mp hb with ⟨r, _, he⟩
        exact he.symm)]
      rw [List.nil_append]
      show [(0 + (t.rows.map (fun r => r ++ List.replicate δ.length none)).length,
        _)] = _
      rw [List.length_map, Nat.zero_add]
    · rw [withIdxFrom_length, List.length_map, List.length_map]
  have hfindres : findCore rm (insertResultDB db tn rs t δ) tn
      [(idCol, [CondVal.str (freshId db.nextId)])] [] []
      = .ok ⟨t.schema ++ δ,
          [(t.rows.length,
            (t.schema ++ δ).map
              (fun c => (alGet (insertResultRecord db tn rs) c).getD none))]⟩ := by
    unfold findCore
    rw [ht3, hcw]
    simp only []
    rw [show checkConditions ([] : Cond) = none from rfl]
    simp only []
    simp only [insertResultTable, List.isEmpty_nil, List.isEmpty_cons,
      Bool.not_true, Bool.not_false, Bool.false_and, Bool.false_eq_true,
      if_false, if_true]
    rw [hmask]
    simp only []
    rw [hsel]
    rfl
  have hfindN : findNormCore rm (insertResultDB db tn rs t δ) tn
      [(idCol, [CondVal.str (freshId db.nextId)])] [] []
      = .ok ⟨t.schema ++ δ,
          [(t.rows.length,
            (t.schema ++ δ).map
              (fun c => (alGet (insertResultRecord db tn rs) c).getD none))]⟩ := by
    unfold findNormCore
    rw [ht3]
    simp only []
    rw [show checkConditionsNorm [(idCol, [CondVal.str (freshId db.nextId)])]
      = none from rfl]
    simp only []
    rw [show checkConditionsNorm ([] : Cond) = none from rfl]
    simp only []
    exact hfindres
  unfold deleteCore
  rw [e1]
  simp only []
  rw [hcw]
  simp only []
  rw [show checkConditions ([] : Cond) = none from rfl]
  simp only []
  rw [hfindN]
  simp only []
  rw [ht3]
  simp only []
  have hkeep : (withIdxFrom 0
      ((t.rows.map (fun r => r ++ List.replicate δ.length none))
        ++ [(t.schema ++ δ).map
              (fun c => (alGet (insertResultRecord db tn rs) c).getD none)])).filter
      (fun p => !([(t.rows.length,
          (t.schema ++ δ).map
            (fun c => (alGet (insertResultRecord db tn rs) c).getD none))].any
        (fun q => q.1 == p.1)))
      = withIdxFrom 0 (t.rows.map (fun r => r ++ List.replicate δ.length none)) := by
    rw [withIdxFrom_append, List.filter_append]
    have h1 : (withIdxFrom 0
        (t.rows.map (fun r => r ++ List.replicate δ.length none))).filter
        (fun p => !([(t.rows.length,
            (t.schema ++ δ).map
              (fun c => (alGet (insertResultRecord db tn rs) c).getD none))].any
          (fun q => q.1 == p.1)))
        = withIdxFrom 0 (t.rows.map (fun r => r ++ List.replicate δ.length none)) := by
      refine List.filter_eq_self.mpr ?_
      intro p hp
      have hb := mem_withIdxFrom 0 _ p hp
      have hlt : p.1 < t.rows.length := by
        have := hb.2.1
        simpa [List.length_map] using this
      simp only [List.any_cons, List.any_nil, Bool.or_false]
      rw [beq_eq_false_iff_ne.mpr (by omega : t.rows.length ≠ p.1)]
      rfl
    have h2 : (withIdxFrom
        (0 + (t.rows.map (fun r => r ++ List.replicate δ.length none)).length)
        [(t.schema ++ δ).map
          (fun c => (alGet (insertResultRecord db tn rs) c).getD none)]).filter
        (fun p => !([(t.rows.length,
            (t.schema ++ δ).map
              (fun c => (alGet (insertResultRecord db tn rs) c).getD none))].any
          (fun q => q.1 == p.1)))
        = [] := by
      rw [List.length_map, Nat.zero_add]
      show List.filter _ [(t.rows.length, _)] = []
      simp only [List.filter, List.any_cons, List.any_nil, Bool.or_false]
      rw [beq_self_eq_true]
      rfl
    rw [h1, h2, List.append_nil]
  simp only [insertResultDB, insertResultTable]
  rw [hkeep, withIdxFrom_map_snd, alSet_alSet]

end PDDB

namespace PDDB

/-- **C1**: with a non-empty positive condition set and zero matching rows,
`upsert` synthesizes the insert record by writing the first value of each
positive condition over the checked record's fields and inserts it; if the
freshly inserted record satisfies any negative condition, the call fails with
the UpsertConflict error and the just-inserted record is deleted again — the
table keeps exactly its original rows (null-padded for any new columns), with
no new row behind; otherwise the synthesized record is inserted and
returned. -/
theorem upsert_zero_match_conflict (rm : String → String → Bool) (db : DB)
    (tname : String) (record : RawRecord) (w wn : Cond)
    (rec : List (String × String)) (t : Table) (res : FindRes)
    (ht : alGet db.tables (lowerStr tname) = some t)
    (hdyn : db.dynamicSchema = true)
    (hshape : t.shapeOk = true)
    (hwfb : db.wfb = true)
    (hrec : checkRecord record = .ok rec)
    (hnd : (rec.map (·.1)).Nodup)
    (hwnd : (w.map (·.1)).Nodup)
    (hw : checkConditions w = none)
    (hwn : checkConditions wn = none)
    (hnw : checkConditionsNorm w = none)
    (hnwn : checkConditionsNorm wn = none)
    (hwne : w ≠ [])
    (hwstr : ∀ p ∈ w, ∃ s, p.2.headD CondVal.null = CondVal.str s)
    (hfind : findCore rm db (lowerStr tname) w wn [] = .ok res)
    (hzero : res.rows = [])
    (hbase : ∀ k ∈ ((alGet db.rowgens (lowerStr tname)).getD []).map (·.1),
      colnameOk k = true)
    (hkeys : ∀ k ∈ (synthRec rec w).map (·.1), colnameOk k = true)
    (hpres : ∀ p ∈ wn,
      (alGet (insertResultRecord db (lowerStr tname) (synthRec rec w)) p.1).isSome
        = true) :
    ∃ δ : List String,
      checkRecord (synthWhere rec w) = .ok (synthRec rec w) ∧
      (∀ k, k ∈ w.map (·.1) → alGet (synthRec rec w) k = condFirst w k) ∧
      (∀ k, k ∉ w.map (·.1) → alGet (synthRec rec w) k = alGet rec k) ∧
      (wn.any (fun p => memCond
          ((alGet (insertResultRecord db (lowerStr tname) (synthRec rec w)) p.1).getD
            none) p.2) = true →
        upsert rm db tname record w wn []
          = (.error DbError.upsertConflict,
             { db with
               nextId := db.nextId + 1,
               tables := alSet db.tables (lowerStr tname)
                 ⟨t.schema ++ δ,
                  t.rows.map (fun r => r ++ List.replicate δ.length none)⟩ })) ∧
      (wn.any (fun p => memCond
          ((alGet (insertResultRecord db (lowerStr tname) (synthRec rec w)) p.1).getD
            none) p.2) = false →
        upsert rm db tname record w wn []
          = (.ok (UpsertOut.inserted
              (insertResultRecord db (lowerStr tname) (synthRec rec w))),
             insertResultDB db (lowerStr tname) (synthRec rec w) t δ)) := by
  obtain ⟨hid, hnds, hok, hlen⟩ := shapeOk_unpack t hshape
  have hrecS : checkRecord (synthWhere rec w) = .ok (synthRec rec w) :=
    checkRecord_synthWhere rec w hwstr
  have hndrs : ((synthRec rec w).map (·.1)).Nodup := nodup_keys_synthRec rec w hnd
  obtain ⟨δ, hins, hδp, hcovk, hδnd⟩ :=
    insertCore_char db (lowerStr tname) (synthWhere rec w) t (synthRec rec w)
      ht hrecS hdyn hid hok hbase hkeys
  have halid : alGet (insertResultRecord db (lowerStr tname) (synthRec rec w)) idCol
      = some (some (freshId db.nextId)) := by
    unfold insertResultRecord
    rw [alGet_overlay_mem _ _ idCol
      (nodup_keys_alSet (synthRec rec w) idCol _ hndrs)
      ((mem_keys_alSet (synthRec rec w) idCol idCol _).mpr (Or.inr rfl)),
      alGet_alSet_self]
    rfl
  have hfresh : ∀ r ∈ t.rows,
      rowGet t.schema r idCol ≠ some (freshId db.nextId) := by
    intro r hr
    have hmem : rowGet t.schema r idCol ∈ db.allIds := by
      unfold DB.allIds idsOfTables
      exact List.mem_flatMap.mpr
        ⟨(lowerStr tname, t), alGet_mem_pair db.tables (lowerStr tname) t ht,
         List.mem_map.mpr ⟨r, hr, rfl⟩⟩
    exact allIds_fresh db hwfb _ hmem
  have hdel := deleteCore_retract rm db (lowerStr tname) (synthRec rec w) t δ
    hid hlen halid hfresh
  have hfn : wn.find? (fun p =>
      !(alGet (insertResultRecord db (lowerStr tname) (synthRec rec w)) p.1).isSome)
      = none := by
    rw [List.find?_eq_none]
    intro p hp
    rw [hpres p hp]
    simp
  have hwe : w.isEmpty = false := by
    cases w with
    | nil => exact absurd rfl hwne
    | cons a l => rfl
  have hre : res.rows.isEmpty = true := by
    rw [hzero]
    rfl
  have e1 : checkTnameCore db (lowerStr tname) = (db, none) := by
    unfold checkTnameCore
    rw [ht]
  have hfindN : findNormCore rm db (lowerStr tname) w wn [] = .ok res := by
    unfold findNormCore
    rw [ht]
    simp only []
    rw [hnw]
    simp only []
    rw [hnwn]
    simp only []
    exact hfind
  have hred : upsert rm db tname record w wn []
      = (if wn.any (fun p => memCond
            ((alGet (insertResultRecord db (lowerStr tname) (synthRec rec w)) p.1).getD
              none) p.2) then
          (.error DbError.upsertConflict,
           { db with
             nextId := db.nextId + 1,
             tables := alSet db.tables (lowerStr tname)
               ⟨t.schema ++ δ,
                t.rows.map (fun r => r ++ List.replicate δ.length none)⟩ })
        else (.ok (UpsertOut.inserted
            (insertResultRecord db (lowerStr tname) (synthRec rec w))),
           insertResultDB db (lowerStr tname) (synthRec rec w) t δ)) := by
    unfold upsert upsertCore
    rw [e1]
    simp only []
    rw [hw]
    simp only []
    rw [hwn]
    simp only []
    rw [hrec]
    simp only []
    rw [hwe]
    simp only [Bool.false_and, Bool.false_eq_true, if_false]
    rw [hfindN]
    simp only []
    rw [if_pos hre]
    rw [hins]
    simp only []
    rw [hfn]
    simp only []
    rw [halid]
    simp only []
    rw [hdel]
  refine ⟨δ, hrecS,
    (fun k hk => synthRec_mem rec w k hwnd hwstr hk),
    (fun k hk => synthRec_not_mem rec w k hk), ?_, ?_⟩
  · intro hc
    rw [hred, if_pos hc]
  · intro hc
    rw [hred, if_neg]
    intro hh
    rw [hc] at hh
    simp at hh

end PDDB

namespace PDDB

theorem upsert_zero_match_conflict_witness :
    ∃ δ : List String,
      checkRecord (synthWhere [("a", "z")] [("b", [CondVal.str "w1"])])
        = .ok (synthRec [("a", "z")] [("b", [CondVal.str "w1"])]) ∧
      (∀ k, k ∈ ([("b", [CondVal.str "w1"])] : Cond).map (·.1) →
        alGet (synthRec [("a", "z")] [("b", [CondVal.str "w1"])]) k
          = condFirst [("b", [CondVal.str "w1"])] k) ∧
      (∀ k, k ∉ ([("b", [CondVal.str "w1"])] : Cond).map (·.1) →
        alGet (synthRec [("a", "z")] [("b", [CondVal.str "w1"])]) k
          = alGet [("a", "z")] k) ∧
      (([("a", [CondVal.str "z"])] : Cond).any (fun p => memCond
          ((alGet (insertResultRecord
              (⟨[("t", ⟨["__id__", "a"], [[some "u", some "x"]]⟩)], [], 1, true⟩ : DB)
              (lowerStr "T")
              (synthRec [("a", "z")] [("b", [CondVal.str "w1"])])) p.1).getD
            none) p.2) = true →
        upsert (fun _ _ => false)
            (⟨[("t", ⟨["__id__", "a"], [[some "u", some "x"]]⟩)], [], 1, true⟩ : DB)
            "T" [("a", CondVal.str "z")] [("b", [CondVal.str "w1"])]
            [("a", [CondVal.str "z"])] []
          = (.error DbError.upsertConflict,
             { (⟨[("t", ⟨["__id__", "a"], [[some "u", some "x"]]⟩)], [], 1, true⟩ : DB) with
               nextId := (⟨[("t", ⟨["__id__", "a"], [[some "u", some "x"]]⟩)], [], 1, true⟩ : DB).nextId + 1,
               tables := alSet
                 (⟨[("t", ⟨["__id__", "a"], [[some "u", some "x"]]⟩)], [], 1, true⟩ : DB).tables
                 (lowerStr "T")
                 ⟨["__id__", "a"] ++ δ,
                  [[some "u", some "x"]].map
                    (fun r => r ++ List.replicate δ.length none)⟩ })) ∧
      (([("a", [CondVal.str "z"])] : Cond).any (fun p => memCond
          ((alGet (insertResultRecord
              (⟨[("t", ⟨["__id__", "a"], [[some "u", some "x"]]⟩)], [], 1, true⟩ : DB)
              (lowerStr "T")
              (synthRec [("a", "z")] [("b", [CondVal.str "w1"])])) p.1).getD
            none) p.2) = false →
        upsert (fun _ _ => false)
            (⟨[("t", ⟨["__id__", "a"], [[some "u", some "x"]]⟩)], [], 1, true⟩ : DB)
            "T" [("a", CondVal.str "z")] [("b", [CondVal.str "w1"])]
            [("a", [CondVal.str "z"])] []
          = (.ok (UpsertOut.inserted
              (insertResultRecord
                (⟨[("t", ⟨["__id__", "a"], [[some "u", some "x"]]⟩)], [], 1, true⟩ : DB)
                (lowerStr "T")
                (synthRec [("a", "z")] [("b", [CondVal.str "w1"])]))),
             insertResultDB
               (⟨[("t", ⟨["__id__", "a"], [[some "u", some "x"]]⟩)], [], 1, true⟩ : DB)
               (lowerStr "T")
               (synthRec [("a", "z")] [("b", [CondVal.str "w1"])])
               ⟨["__id__", "a"], [[some "u", some "x"]]⟩ δ)) :=
  upsert_zero_match_conflict (fun _ _ => false)
    (⟨[("t", ⟨["__id__", "a"], [[some "u", some "x"]]⟩)], [], 1, true⟩ : DB)
    "T" [("a", CondVal.str "z")] [("b", [CondVal.str "w1"])]
    [("a", [CondVal.str "z"])] [("a", "z")]
    ⟨["__id__", "a"], [[some "u", some "x"]]⟩
    ⟨["__id__", "a"], []⟩
    (by decide) (by decide) (by decide) (by decide) (by decide) (by decide)
    (by decide) (by decide) (by decide) (by decide) (by decide) (by decide)
    (by
      intro p hp
      rw [List.mem_singleton] at hp
      subst hp
      exact ⟨"w1", rfl⟩)
    (by decide) (by decide) (by decide) (by decide) (by decide)

end PDDB
